import Mathlib

/-!
Shallow embedding of the commit-reveal game protocol from the
Homeworks-Cybersecurity repository (HW06 rock-paper-scissors and HW07 dice
game): the SHA-256 commitment scheme, the game logics, the JSON message
protocol, Bob's round handler and the match orchestration, together with
proofs of the specified properties.
-/

namespace Spec2Proof

/-! ## SHA-256 (FIPS 180-4), as used by `hashlib.sha256` in
`shared/protocol.py`.  Messages are lists of bytes (`Nat` values < 256);
words are `Nat` values reduced mod 2^32. -/

/-- Reduce to a 32-bit word. -/
def w32 (n : Nat) : Nat := n % 4294967296

/-- Right rotation of a 32-bit word. -/
def rotr (n x : Nat) : Nat := w32 ((x >>> n) ||| (x <<< (32 - n)))

/-- Logical right shift. -/
def shr (n x : Nat) : Nat := x >>> n

/-- Bitwise complement of a 32-bit word. -/
def comp32 (x : Nat) : Nat := x ^^^ 4294967295

def ch (x y z : Nat) : Nat := (x &&& y) ^^^ (comp32 x &&& z)

def maj (x y z : Nat) : Nat := (x &&& y) ^^^ (x &&& z) ^^^ (y &&& z)

def bsig0 (x : Nat) : Nat := rotr 2 x ^^^ rotr 13 x ^^^ rotr 22 x

def bsig1 (x : Nat) : Nat := rotr 6 x ^^^ rotr 11 x ^^^ rotr 25 x

def ssig0 (x : Nat) : Nat := rotr 7 x ^^^ rotr 18 x ^^^ shr 3 x

def ssig1 (x : Nat) : Nat := rotr 17 x ^^^ rotr 19 x ^^^ shr 10 x

/-- The 64 SHA-256 round constants. -/
def shaK : List Nat :=
  [1116352408, 1899447441, 3049323471, 3921009573,
   961987163, 1508970993, 2453635748, 2870763221,
   3624381080, 310598401, 607225278, 1426881987,
   1925078388, 2162078206, 2614888103, 3248222580,
   3835390401, 4022224774, 264347078, 604807628,
   770255983, 1249150122, 1555081692, 1996064986,
   2554220882, 2821834349, 2952996808, 3210313671,
   3336571891, 3584528711, 113926993, 338241895,
   666307205, 773529912, 1294757372, 1396182291,
   1695183700, 1986661051, 2177026350, 2456956037,
   2730485921, 2820302411, 3259730800, 3345764771,
   3516065817, 3600352804, 4094571909, 275423344,
   430227734, 506948616, 659060556, 883997877,
   958139571, 1322822218, 1537002063, 1747873779,
   1955562222, 2024104815, 2227730452, 2361852424,
   2428436474, 2756734187, 3204031479, 3329325298]

/-- The initial SHA-256 hash state. -/
def shaH0 : List Nat :=
  [1779033703, 3144134277, 1013904242, 2773480762,
   1359893119, 2600822924, 528734635, 1541459225]

/-- Group a byte list into big-endian 32-bit words. -/
def bytesToWords : List Nat → List Nat
  | b0 :: b1 :: b2 :: b3 :: rest =>
      (((b0 * 256 + b1) * 256 + b2) * 256 + b3) :: bytesToWords rest
  | _ => []

/-- Extend a 16-word schedule by `t` more words. -/
def extendSchedule : Nat → List Nat → List Nat
  | 0, w => w
  | t + 1, w =>
      let k := w.length
      let nw := w32 (ssig1 (w.getD (k - 2) 0) + w.getD (k - 7) 0 +
                     ssig0 (w.getD (k - 15) 0) + w.getD (k - 16) 0)
      extendSchedule t (w ++ [nw])

/-- One round of the SHA-256 compression function over the eight-word
working state. -/
def compressRound (st : List Nat) (kw : Nat × Nat) : List Nat :=
  match st with
  | [a, b, c, d, e, f, g, h] =>
      let t1 := w32 (h + bsig1 e + ch e f g + kw.1 + kw.2)
      let t2 := w32 (bsig0 a + maj a b c)
      [w32 (t1 + t2), a, b, c, w32 (d + t1), e, f, g]
  | other => other

/-- Process one 64-byte block, updating the eight-word hash state. -/
def processBlock (h : List Nat) (block : List Nat) : List Nat :=
  let w := extendSchedule 48 (bytesToWords block)
  let st := (shaK.zip w).foldl compressRound h
  (h.zip st).map fun p => w32 (p.1 + p.2)

/-- Split a byte list into 64-byte chunks (fuel-based for structural
recursion). -/
def chunksAux : Nat → List Nat → List (List Nat)
  | 0, _ => []
  | _, [] => []
  | fuel + 1, l => l.take 64 :: chunksAux fuel (l.drop 64)

def chunks (l : List Nat) : List (List Nat) := chunksAux (l.length + 1) l

/-- Big-endian 8-byte encoding of a natural number (the message bit
length, for padding). -/
def be8 (n : Nat) : List Nat :=
  [(n >>> 56) % 256, (n >>> 48) % 256, (n >>> 40) % 256, (n >>> 32) % 256,
   (n >>> 24) % 256, (n >>> 16) % 256, (n >>> 8) % 256, n % 256]

/-- SHA-256 padding: append 0x80, zeros to 56 mod 64, then the 64-bit
big-endian bit length. -/
def padMessage (msg : List Nat) : List Nat :=
  let l := msg.length
  let k := (119 - l % 64) % 64
  msg ++ [128] ++ List.replicate k 0 ++ be8 (l * 8)

/-- The SHA-256 digest of a byte list, as eight 32-bit words. -/
def sha256Words (msg : List Nat) : List Nat :=
  (chunks (padMessage msg)).foldl processBlock shaH0

/-- A hex digit character (lowercase), as produced by `hexdigest()`. -/
def hexDigit (n : Nat) : Char :=
  if n < 10 then Char.ofNat (48 + n) else Char.ofNat (87 + n)

/-- Lowercase hex of one 32-bit word (8 digits). -/
def wordToHex (w : Nat) : List Char :=
  [hexDigit ((w >>> 28) % 16), hexDigit ((w >>> 24) % 16),
   hexDigit ((w >>> 20) % 16), hexDigit ((w >>> 16) % 16),
   hexDigit ((w >>> 12) % 16), hexDigit ((w >>> 8) % 16),
   hexDigit ((w >>> 4) % 16), hexDigit (w % 16)]

/-- Python's `hashlib.sha256(msg).hexdigest()`: the 64-character lowercase hex
digest. -/
def sha256hex (msg : List Nat) : String :=
  String.mk ((sha256Words msg).map wordToHex).flatten

/-- UTF-8 encoding of one character. -/
def utf8Char (c : Char) : List Nat :=
  let n := c.toNat
  if n < 128 then [n]
  else if n < 2048 then [192 + n / 64, 128 + n % 64]
  else if n < 65536 then [224 + n / 4096, 128 + (n / 64) % 64, 128 + n % 64]
  else [240 + n / 262144, 128 + (n / 4096) % 64, 128 + (n / 64) % 64,
        128 + n % 64]

/-- Python's `str.encode('utf-8')` as a byte list. -/
def utf8Encode (s : String) : List Nat := s.data.flatMap utf8Char

/-! ## CommitmentScheme (`shared/protocol.py`, identical in HW06 and
HW07). -/

namespace CommitmentScheme

/-- The source's `CommitmentScheme.commit`: SHA-256 hex digest of the UTF-8 encoding of
`f"{value}||{nonce}"`. -/
def commit (value nonce : String) : String :=
  sha256hex (utf8Encode (value ++ "||" ++ nonce))

/-- The source's `CommitmentScheme.verify`: recompute the commitment and compare for
equality. -/
def verify (commitment value nonce : String) : Bool :=
  commitment == commit value nonce

end CommitmentScheme

/-! ## JSON values, as handled by Python's `json` module in
`shared/protocol.py`.  The model covers the fragment the protocol uses:
null, booleans, integers, strings, arrays and objects (floats are outside
the model).  Objects are association lists in insertion order, matching
`json.dumps` output order and `**kwargs` order. -/

mutual
inductive Json where
  | null
  | bool (b : Bool)
  | num (n : Int)
  | str (s : String)
  | arr (xs : JsonList)
  | obj (kvs : JsonMembers)
inductive JsonList where
  | nil
  | cons (hd : Json) (tl : JsonList)
inductive JsonMembers where
  | nil
  | cons (key : String) (val : Json) (tl : JsonMembers)
end

/-- The opening curly brace character. -/
def lbrace : Char := Char.ofNat 123

/-- The closing curly brace character. -/
def rbrace : Char := Char.ofNat 125

/-- A decimal digit character. -/
def digitCh (n : Nat) : Char := Char.ofNat (48 + n)

def isDigitCh (c : Char) : Bool := 48 ≤ c.toNat && c.toNat ≤ 57

/-- Four lowercase hex digits (for a JSON \u escape). -/
def hex4 (n : Nat) : List Char :=
  [hexDigit ((n >>> 12) % 16), hexDigit ((n >>> 8) % 16),
   hexDigit ((n >>> 4) % 16), hexDigit (n % 16)]

/-- How `json.dumps` (with its default `ensure_ascii=True`) renders one
character inside a string literal: printable ASCII verbatim; quote,
backslash and the five short escapes specially; all other BMP characters
as \uXXXX; astral characters as a surrogate pair. -/
def escapeChar (c : Char) : List Char :=
  if c = '"' then ['\\', '"']
  else if c = '\\' then ['\\', '\\']
  else if c.toNat = 8 then ['\\', 'b']
  else if c.toNat = 9 then ['\\', 't']
  else if c.toNat = 10 then ['\\', 'n']
  else if c.toNat = 12 then ['\\', 'f']
  else if c.toNat = 13 then ['\\', 'r']
  else if c.toNat < 32 then '\\' :: 'u' :: hex4 c.toNat
  else if c.toNat < 127 then [c]
  else if c.toNat < 65536 then '\\' :: 'u' :: hex4 c.toNat
  else
    ('\\' :: 'u' :: hex4 (55296 + (c.toNat - 65536) / 1024)) ++
    ('\\' :: 'u' :: hex4 (56320 + (c.toNat - 65536) % 1024))

/-- A JSON string literal: quote, escaped characters, quote. -/
def strChars (s : String) : List Char :=
  '"' :: s.data.flatMap escapeChar ++ ['"']

/-- Decimal digits of a natural number (fuel-based; `natChars 0 = "0"`,
matching Python's `str`). -/
def natCharsAux : Nat → Nat → List Char
  | 0, _ => []
  | fuel + 1, n =>
      if n < 10 then [digitCh n]
      else natCharsAux fuel (n / 10) ++ [digitCh (n % 10)]

def natChars (n : Nat) : List Char := natCharsAux (n + 1) n

/-- Python's rendering of an int: optional minus sign, then digits. -/
def intChars (i : Int) : List Char :=
  if i < 0 then '-' :: natChars (-i).toNat else natChars i.toNat

mutual
/-- Python's `json.dumps` with default separators, on the modelled JSON
fragment. -/
def dumpsV : Json → List Char
  | .null => "null".data
  | .bool true => "true".data
  | .bool false => "false".data
  | .num i => intChars i
  | .str s => strChars s
  | .arr xs => '[' :: dumpsElems xs ++ [']']
  | .obj kvs => lbrace :: dumpsMembers kvs ++ [rbrace]
/-- Array elements joined by the default item separator. -/
def dumpsElems : JsonList → List Char
  | .nil => []
  | .cons x .nil => dumpsV x
  | .cons x (.cons y ys) => dumpsV x ++ ',' :: ' ' :: dumpsElems (.cons y ys)
/-- Object members: quoted key, key separator, value, joined by the item
separator. -/
def dumpsMembers : JsonMembers → List Char
  | .nil => []
  | .cons k v .nil => strChars k ++ ':' :: ' ' :: dumpsV v
  | .cons k v (.cons k2 v2 ms) =>
      strChars k ++ ':' :: ' ' :: dumpsV v ++
      ',' :: ' ' :: dumpsMembers (.cons k2 v2 ms)
end

def dumps (j : Json) : String := String.mk (dumpsV j)

/-! ## JSON parsing, modelling `json.loads` on the same fragment. -/

/-- Skip JSON whitespace. -/
def skipWs : List Char → List Char
  | [] => []
  | c :: rest =>
      if c = ' ' ∨ c = '\t' ∨ c = '\n' ∨ c.toNat = 13 then skipWs rest
      else c :: rest

/-- Value of one hex digit (both cases accepted, as by `json.loads`). -/
def hexVal (c : Char) : Option Nat :=
  if 48 ≤ c.toNat ∧ c.toNat ≤ 57 then some (c.toNat - 48)
  else if 97 ≤ c.toNat ∧ c.toNat ≤ 102 then some (c.toNat - 87)
  else if 65 ≤ c.toNat ∧ c.toNat ≤ 70 then some (c.toNat - 55)
  else none

def hex4Val (a b c d : Char) : Option Nat :=
  match hexVal a, hexVal b, hexVal c, hexVal d with
  | some x, some y, some z, some w => some (((x * 16 + y) * 16 + z) * 16 + w)
  | _, _, _, _ => none

/-- Recombine a high and a low surrogate into one scalar value. -/
def combineSurrogate (n m : Nat) : Char :=
  Char.ofNat (65536 + (n - 55296) * 1024 + (m - 56320))

/-- After a high surrogate `n`, decode the following \uXXXX low
surrogate. -/
def decodeULow (n : Nat) : List Char → Option (Char × List Char)
  | s1 :: s2 :: g1 :: g2 :: g3 :: g4 :: rest2 =>
      if s1 = '\\' ∧ s2 = 'u' then
        match hex4Val g1 g2 g3 g4 with
        | some m =>
            if 56320 ≤ m ∧ m ≤ 57343 then
              some (combineSurrogate n m, rest2)
            else none
        | none => none
      else none
  | _ => none

/-- Interpret the value of one \uXXXX escape: a non-surrogate stands for
itself, a high surrogate must be followed by a low one, and a lone low
surrogate (not representable in a Lean `String`) is rejected. -/
def decodeUVal (n : Nat) (rest : List Char) : Option (Char × List Char) :=
  if n < 55296 ∨ 57343 < n then some (Char.ofNat n, rest)
  else if n < 56320 then decodeULow n rest
  else none

/-- Decode one \uXXXX escape body (the four hex digits and, for a high
surrogate, the following \uXXXX low surrogate), as `json.loads` does. -/
def decodeUSeq : List Char → Option (Char × List Char)
  | h1 :: h2 :: h3 :: h4 :: rest =>
      match hex4Val h1 h2 h3 h4 with
      | some n => decodeUVal n rest
      | none => none
  | _ => none

/-- Parse the body of a JSON string literal (after the opening quote),
accumulating decoded characters in reverse.  Strict mode: raw control
characters are rejected.  Fuel-based so the recursion is structural;
every step consumes one unit. -/
def parseStringBody : Nat → List Char → List Char → Option (String × List Char)
  | 0, _, _ => none
  | _ + 1, _, [] => none
  | fuel + 1, acc, c :: rest =>
      if c = '"' then some (String.mk acc.reverse, rest)
      else if c = '\\' then
        match rest with
        | [] => none
        | e :: rest2 =>
            if e = 'u' then
              match decodeUSeq rest2 with
              | some (ch, r) => parseStringBody fuel (ch :: acc) r
              | none => none
            else if e = '"' then parseStringBody fuel ('"' :: acc) rest2
            else if e = '\\' then
              parseStringBody fuel ('\\' :: acc) rest2
            else if e = '/' then parseStringBody fuel ('/' :: acc) rest2
            else if e = 'b' then
              parseStringBody fuel (Char.ofNat 8 :: acc) rest2
            else if e = 'f' then
              parseStringBody fuel (Char.ofNat 12 :: acc) rest2
            else if e = 'n' then parseStringBody fuel ('\n' :: acc) rest2
            else if e = 'r' then
              parseStringBody fuel (Char.ofNat 13 :: acc) rest2
            else if e = 't' then parseStringBody fuel ('\t' :: acc) rest2
            else none
      else if c.toNat < 32 then none
      else parseStringBody fuel (c :: acc) rest

/-- Consume a maximal run of decimal digits onto an accumulator. -/
def parseDigitsAcc : Nat → List Char → Nat × List Char
  | acc, [] => (acc, [])
  | acc, c :: rest =>
      if isDigitCh c then parseDigitsAcc (acc * 10 + (c.toNat - 48)) rest
      else (acc, c :: rest)

/-- Parse a nonempty digit run. -/
def parseDigits : List Char → Option (Nat × List Char)
  | [] => none
  | c :: rest =>
      if isDigitCh c then some (parseDigitsAcc (c.toNat - 48) rest)
      else none

mutual
/-- Parse one JSON value (fuel-based so that the recursion is structural
and kernel-reducible). -/
def parseValue : Nat → List Char → Option (Json × List Char)
  | 0, _ => none
  | fuel + 1, cs =>
      match skipWs cs with
      | [] => none
      | c :: rest =>
          if c = '"' then
            match parseStringBody (rest.length + 1) [] rest with
            | some (s, r) => some (.str s, r)
            | none => none
          else if c = lbrace then
            match skipWs rest with
            | c2 :: rest2 =>
                if c2 = rbrace then some (.obj .nil, rest2)
                else
                  match parseMembers fuel (c2 :: rest2) with
                  | some (kvs, r) => some (.obj kvs, r)
                  | none => none
            | [] => none
          else if c = '[' then
            match skipWs rest with
            | c2 :: rest2 =>
                if c2 = ']' then some (.arr .nil, rest2)
                else
                  match parseElems fuel (c2 :: rest2) with
                  | some (xs, r) => some (.arr xs, r)
                  | none => none
            | [] => none
          else if c = '-' then
            match parseDigits rest with
            | some (n, r) => some (.num (-(n : Int)), r)
            | none => none
          else if isDigitCh c then
            match parseDigits (c :: rest) with
            | some (n, r) => some (.num (n : Int), r)
            | none => none
          else
            match c :: rest with
            | 'n' :: 'u' :: 'l' :: 'l' :: r => some (.null, r)
            | 't' :: 'r' :: 'u' :: 'e' :: r => some (.bool true, r)
            | 'f' :: 'a' :: 'l' :: 's' :: 'e' :: r => some (.bool false, r)
            | _ => none
/-- Parse one or more comma-separated array elements and the closing
bracket. -/
def parseElems : Nat → List Char → Option (JsonList × List Char)
  | 0, _ => none
  | fuel + 1, cs =>
      match parseValue fuel cs with
      | none => none
      | some (v, r) =>
          match skipWs r with
          | c :: r2 =>
              if c = ',' then
                match parseElems fuel r2 with
                | some (xs, r3) => some (.cons v xs, r3)
                | none => none
              else if c = ']' then some (.cons v .nil, r2)
              else none
          | [] => none
/-- Parse one or more object members and the closing brace. -/
def parseMembers : Nat → List Char → Option (JsonMembers × List Char)
  | 0, _ => none
  | fuel + 1, cs =>
      match skipWs cs with
      | c :: rest =>
          if c = '"' then
            match parseStringBody (rest.length + 1) [] rest with
            | some (k, r) =>
                match skipWs r with
                | c2 :: r2 =>
                    if c2 = ':' then
                      match parseValue fuel r2 with
                      | some (v, r3) =>
                          match skipWs r3 with
                          | c3 :: r4 =>
                              if c3 = ',' then
                                match parseMembers fuel r4 with
                                | some (ms, r5) => some (.cons k v ms, r5)
                                | none => none
                              else if c3 = rbrace then
                                some (.cons k v .nil, r4)
                              else none
                          | [] => none
                      | none => none
                    else none
                | [] => none
            | none => none
          else none
      | [] => none
end

/-- Is a character run whitespace only? -/
def allWs : List Char → Bool
  | [] => true
  | c :: rest =>
      (c = ' ' ∨ c = '\t' ∨ c = '\n' ∨ c.toNat = 13 : Bool) && allWs rest

/-- Python's `json.loads`: parse one value and require only trailing whitespace. -/
def loads (s : String) : Option Json :=
  match parseValue (s.data.length + 1) s.data with
  | some (j, rest) => if allWs rest then some j else none
  | none => none

/-! ## ProtocolMessage and socket receive (`shared/protocol.py`). -/

/-- Python exceptions that `ProtocolMessage.parse` and `receive_message`
can raise. -/
inductive PyErr where
  | valueError (msg : String)
  | typeError
  | connectionError

/-- Does `needle` start `hay`? -/
def leadsWith : List Char → List Char → Bool
  | [], _ => true
  | _ :: _, [] => false
  | a :: as, b :: bs => a == b && leadsWith as bs

/-- Python substring test `needle in hay`. -/
def containsSub (needle : List Char) : List Char → Bool
  | [] => leadsWith needle []
  | c :: t => leadsWith needle (c :: t) || containsSub needle t

/-- Python `key in dict` on a decoded JSON object. -/
def hasKey : JsonMembers → String → Bool
  | .nil, _ => false
  | .cons k _ tl, key => k == key || hasKey tl key

/-- Python `key in list` on a decoded JSON array: true iff some element
is the string `key`. -/
def listHasStr : JsonList → String → Bool
  | .nil, _ => false
  | .cons (Json.str s) tl, key => s == key || listHasStr tl key
  | .cons _ tl, key => listHasStr tl key

/-- Python's `key in message` on whatever `json.loads` returned: key
membership on dicts, substring on strings, element membership on lists,
`TypeError` on numbers, booleans and `None`. -/
def pyContains (j : Json) (key : String) : Except PyErr Bool :=
  match j with
  | .obj kvs => .ok (hasKey kvs key)
  | .str s => .ok (containsSub key.data s.data)
  | .arr xs => .ok (listHasStr xs key)
  | _ => .error .typeError

namespace ProtocolMessage

/-- The source's `ProtocolMessage.create`: JSON-encode the envelope with the type and
the keyword payload. -/
def create (msg_type : String) (kwargs : JsonMembers) : String :=
  dumps (.obj (.cons "type" (.str msg_type)
    (.cons "data" (.obj kwargs) .nil)))

/-- The source's `ProtocolMessage.parse`: decode, then check `"type" in message` and
`"data" in message`; a `json.JSONDecodeError` is converted to
`ValueError`, the membership failure raises `ValueError`, and a
membership test on a non-container propagates `TypeError`. -/
def parse (message_str : String) : Except PyErr Json :=
  match loads message_str with
  | none => .error (.valueError "Failed to parse message")
  | some message =>
      match pyContains message "type" with
      | .error e => .error e
      | .ok false => .error (.valueError "Invalid message format")
      | .ok true =>
          match pyContains message "data" with
          | .error e => .error e
          | .ok false => .error (.valueError "Invalid message format")
          | .ok true => .ok message

end ProtocolMessage

/-- Split an incoming byte stream at the first newline terminator:
`none` when the stream ends (connection closes) first. -/
def splitAtNewline : List Char → Option (List Char × List Char)
  | [] => none
  | c :: rest =>
      if c = '\n' then some ([], rest)
      else
        match splitAtNewline rest with
        | some (line, tail) => some (c :: line, tail)
        | none => none

/-- The source's `receive_message`: read byte-by-byte until a newline (raising
`ConnectionError` if the stream closes first), then parse the line.  The
stream is modelled as the list of characters available before the peer
closes the connection. -/
def receive_message (stream : List Char) : Except PyErr Json :=
  match splitAtNewline stream with
  | none => .error .connectionError
  | some (line, _) => ProtocolMessage.parse (String.mk line)

/-! ## Full-grammar model of `json.loads`, for receiving arbitrary lines.

The fragment model above serves the protocol's own, printer-produced
messages; characterizing the failure modes of `receive_message` on an
arbitrary stream needs `json.loads` under its full default grammar:
numbers with fraction and exponent parts and without leading zeros, the
constants `NaN`, `Infinity` and `-Infinity`, and string escapes that can
leave lone surrogates. -/

mutual
/-- A value `json.loads` can return, beyond the printer's fragment.  A
float keeps its literal token: the IEEE value is outside the model, and
no statement here depends on it — the decoded value only ever meets the
membership tests, which raise `TypeError` on every float alike.  A
string is a list of code points, since a `\uXXXX` escape can produce a
lone surrogate that a Lean `String` cannot carry; object keys are such
strings too. -/
inductive PyVal where
  | null : PyVal
  | bool (b : Bool) : PyVal
  | int (n : Int) : PyVal
  | float (tok : String) : PyVal
  | str (cps : List Nat) : PyVal
  | arr (xs : PyList) : PyVal
  | obj (kvs : PyObj) : PyVal
/-- A list of full-grammar values. -/
inductive PyList where
  | nil : PyList
  | cons (hd : PyVal) (tl : PyList) : PyList
/-- Object members with code-point keys; duplicates keep source order. -/
inductive PyObj where
  | nil : PyObj
  | cons (key : List Nat) (val : PyVal) (tl : PyObj) : PyObj
end

/-- Parse the body of a JSON string literal as `json.loads` does on
arbitrary input (the C scanner's `scanstring`): strict about raw control
characters, unknown escapes and malformed `\uXXXX` digits, pairing a
high surrogate with an immediately following low-surrogate escape, and
keeping any surrogate a `\uXXXX` escape leaves unpaired.  The
accumulator holds decoded code points in reverse; fuel-based so the
recursion is structural, every step consuming at least one character. -/
def pyStrBody : Nat → List Nat → List Char → Option (List Nat × List Char)
  | 0, _, _ => none
  | _ + 1, _, [] => none
  | fuel + 1, acc, c :: rest =>
      if c = '"' then some (acc.reverse, rest)
      else if c = '\\' then
        match rest with
        | [] => none
        | e :: rest2 =>
            if e = 'u' then
              match rest2 with
              | h1 :: h2 :: h3 :: h4 :: rest3 =>
                  match hex4Val h1 h2 h3 h4 with
                  | none => none
                  | some n =>
                      if 55296 ≤ n ∧ n ≤ 56319 then
                        match rest3 with
                        | s1 :: s2 :: rest4 =>
                            if s1 = '\\' ∧ s2 = 'u' then
                              match rest4 with
                              | g1 :: g2 :: g3 :: g4 :: rest5 =>
                                  match hex4Val g1 g2 g3 g4 with
                                  | none => none
                                  | some m =>
                                      if 56320 ≤ m ∧ m ≤ 57343 then
                                        pyStrBody fuel
                                          ((65536 + (n - 55296) * 1024 +
                                            (m - 56320)) :: acc) rest5
                                      else pyStrBody fuel (n :: acc) rest3
                              | _ => none
                            else pyStrBody fuel (n :: acc) rest3
                        | _ => pyStrBody fuel (n :: acc) rest3
                      else pyStrBody fuel (n :: acc) rest3
              | _ => none
            else if e = '"' then pyStrBody fuel (34 :: acc) rest2
            else if e = '\\' then pyStrBody fuel (92 :: acc) rest2
            else if e = '/' then pyStrBody fuel (47 :: acc) rest2
            else if e = 'b' then pyStrBody fuel (8 :: acc) rest2
            else if e = 'f' then pyStrBody fuel (12 :: acc) rest2
            else if e = 'n' then pyStrBody fuel (10 :: acc) rest2
            else if e = 'r' then pyStrBody fuel (13 :: acc) rest2
            else if e = 't' then pyStrBody fuel (9 :: acc) rest2
            else none
      else if c.toNat < 32 then none
      else pyStrBody fuel (c.toNat :: acc) rest

/-- Consume a maximal run of decimal digits, keeping the token
characters. -/
def digitRun : List Char → List Char × List Char
  | [] => ([], [])
  | c :: rest =>
      if isDigitCh c then
        match digitRun rest with
        | (ds, r) => (c :: ds, r)
      else ([], c :: rest)

/-- Numeric value of a decimal digit token. -/
def digitsVal (ds : List Char) : Nat :=
  ds.foldl (fun a c => a * 10 + (c.toNat - 48)) 0

/-- The integer part of the scanner's number token: a single `0`, or a
nonzero digit followed by more digits — leading zeros do not extend the
token, which is how `json.loads` comes to reject `05` (the token `0` is
followed by unconsumed input). -/
def pyIntPart : List Char → Option (List Char × List Char)
  | [] => none
  | c :: rest =>
      if c = '0' then some (['0'], rest)
      else if isDigitCh c then
        match digitRun rest with
        | (ds, r) => some (c :: ds, r)
      else none

/-- The optional fraction part, a dot and at least one digit; consumed
only when complete, as the scanner's regex backtracks otherwise. -/
def pyFracPart : List Char → List Char × List Char
  | '.' :: c :: rest =>
      if isDigitCh c then
        match digitRun rest with
        | (ds, r) => ('.' :: c :: ds, r)
      else ([], '.' :: c :: rest)
  | cs => ([], cs)

/-- The optional exponent part, `e`/`E`, an optional sign and at least
one digit; consumed only when complete. -/
def pyExpPart (cs : List Char) : List Char × List Char :=
  match cs with
  | e :: rest =>
      if e = 'e' ∨ e = 'E' then
        match rest with
        | s :: c :: rest2 =>
            if (s = '+' ∨ s = '-') ∧ isDigitCh c then
              match digitRun rest2 with
              | (ds, r) => (e :: s :: c :: ds, r)
            else if isDigitCh s then
              match digitRun (c :: rest2) with
              | (ds, r) => (e :: s :: ds, r)
            else ([], e :: s :: c :: rest2)
        | [s] => if isDigitCh s then ([e, s], []) else ([], [e, s])
        | [] => ([], [e])
      else ([], e :: rest)
  | [] => ([], [])

/-- The scanner's number token at the head of the input: optional sign,
integer part without leading zeros, optional complete fraction and
exponent parts.  A bare integer token yields an `int`; any fraction or
exponent yields a `float` carrying the literal token. -/
def pyNumber (cs : List Char) : Option (PyVal × List Char) :=
  match cs with
  | '-' :: rest =>
      match pyIntPart rest with
      | none => none
      | some (ip, r1) =>
          match pyFracPart r1 with
          | (fp, r2) =>
              match pyExpPart r2 with
              | (ep, r3) =>
                  if fp = [] ∧ ep = [] then
                    some (.int (-(digitsVal ip : Int)), r3)
                  else some (.float (String.mk ('-' :: ip ++ fp ++ ep)), r3)
  | rest =>
      match pyIntPart rest with
      | none => none
      | some (ip, r1) =>
          match pyFracPart r1 with
          | (fp, r2) =>
              match pyExpPart r2 with
              | (ep, r3) =>
                  if fp = [] ∧ ep = [] then
                    some (.int (digitsVal ip : Int), r3)
                  else some (.float (String.mk (ip ++ fp ++ ep)), r3)

mutual
/-- Parse one JSON value with the full default `json.loads` grammar
(fuel-based so the recursion is structural and kernel-reducible).  The
scanner tries the number token before the `-Infinity` constant, so a
`-` followed by digits is always a number. -/
def parseValuePy : Nat → List Char → Option (PyVal × List Char)
  | 0, _ => none
  | fuel + 1, cs =>
      match skipWs cs with
      | [] => none
      | c :: rest =>
          if c = '"' then
            match pyStrBody (rest.length + 1) [] rest with
            | some (s, r) => some (.str s, r)
            | none => none
          else if c = lbrace then
            match skipWs rest with
            | c2 :: rest2 =>
                if c2 = rbrace then some (.obj .nil, rest2)
                else
                  match parseMembersPy fuel (c2 :: rest2) with
                  | some (kvs, r) => some (.obj kvs, r)
                  | none => none
            | [] => none
          else if c = '[' then
            match skipWs rest with
            | c2 :: rest2 =>
                if c2 = ']' then some (.arr .nil, rest2)
                else
                  match parseElemsPy fuel (c2 :: rest2) with
                  | some (xs, r) => some (.arr xs, r)
                  | none => none
            | [] => none
          else if c = '-' ∨ isDigitCh c then
            match pyNumber (c :: rest) with
            | some (v, r) => some (v, r)
            | none =>
                match c :: rest with
                | '-' :: 'I' :: 'n' :: 'f' :: 'i' :: 'n' :: 'i' :: 't'
                    :: 'y' :: r => some (.float "-Infinity", r)
                | _ => none
          else
            match c :: rest with
            | 'n' :: 'u' :: 'l' :: 'l' :: r => some (.null, r)
            | 't' :: 'r' :: 'u' :: 'e' :: r => some (.bool true, r)
            | 'f' :: 'a' :: 'l' :: 's' :: 'e' :: r => some (.bool false, r)
            | 'N' :: 'a' :: 'N' :: r => some (.float "NaN", r)
            | 'I' :: 'n' :: 'f' :: 'i' :: 'n' :: 'i' :: 't' :: 'y' :: r =>
                some (.float "Infinity", r)
            | _ => none
/-- Parse one or more comma-separated array elements and the closing
bracket, full grammar. -/
def parseElemsPy : Nat → List Char → Option (PyList × List Char)
  | 0, _ => none
  | fuel + 1, cs =>
      match parseValuePy fuel cs with
      | none => none
      | some (v, r) =>
          match skipWs r with
          | c :: r2 =>
              if c = ',' then
                match parseElemsPy fuel r2 with
                | some (xs, r3) => some (.cons v xs, r3)
                | none => none
              else if c = ']' then some (.cons v .nil, r2)
              else none
          | [] => none
/-- Parse one or more object members and the closing brace, full
grammar. -/
def parseMembersPy : Nat → List Char → Option (PyObj × List Char)
  | 0, _ => none
  | fuel + 1, cs =>
      match skipWs cs with
      | c :: rest =>
          if c = '"' then
            match pyStrBody (rest.length + 1) [] rest with
            | some (k, r) =>
                match skipWs r with
                | c2 :: r2 =>
                    if c2 = ':' then
                      match parseValuePy fuel r2 with
                      | some (v, r3) =>
                          match skipWs r3 with
                          | c3 :: r4 =>
                              if c3 = ',' then
                                match parseMembersPy fuel r4 with
                                | some (ms, r5) => some (.cons k v ms, r5)
                                | none => none
                              else if c3 = rbrace then
                                some (.cons k v .nil, r4)
                              else none
                          | [] => none
                      | none => none
                    else none
                | [] => none
            | none => none
          else none
      | [] => none
end

/-- Python's `json.loads` with the full default grammar: parse one
value and require only trailing whitespace.  The fuel covers every
input the interpreter's recursion limit admits, since each recursive
step consumes at least one character of a balanced document. -/
def loadsPy (s : String) : Option PyVal :=
  match parseValuePy (s.data.length + 1) s.data with
  | some (j, rest) => if allWs rest then some j else none
  | none => none

/-- Code points of a Lean string, for comparing against decoded Python
strings. -/
def strCps (s : String) : List Nat := s.data.map Char.toNat

/-- Python `key in dict` on a full-grammar decoded object. -/
def hasKeyPy : PyObj → List Nat → Bool
  | .nil, _ => false
  | .cons k _ tl, key => k == key || hasKeyPy tl key

/-- Python `key in list` on a full-grammar decoded array: true iff some
element is the string `key` (a number, boolean, null or container
element never equals a string). -/
def listHasStrPy : PyList → List Nat → Bool
  | .nil, _ => false
  | .cons (PyVal.str s) tl, key => s == key || listHasStrPy tl key
  | .cons _ tl, key => listHasStrPy tl key

/-- Does `needle` start `hay`, on code points? -/
def leadsWithN : List Nat → List Nat → Bool
  | [], _ => true
  | _ :: _, [] => false
  | a :: as, b :: bs => a == b && leadsWithN as bs

/-- Python substring test on code points. -/
def containsSubN (needle : List Nat) : List Nat → Bool
  | [] => leadsWithN needle []
  | c :: t => leadsWithN needle (c :: t) || containsSubN needle t

/-- Python's `key in message` on a full-grammar decoded value: key
membership on dicts, substring on strings, element membership on lists,
`TypeError` on every number (int or float, `NaN` included), boolean and
`None`. -/
def pyContainsPy (v : PyVal) (key : String) : Except PyErr Bool :=
  match v with
  | .obj kvs => .ok (hasKeyPy kvs (strCps key))
  | .str s => .ok (containsSubN (strCps key) s)
  | .arr xs => .ok (listHasStrPy xs (strCps key))
  | _ => .error .typeError

namespace ProtocolMessagePy

/-- The source's `ProtocolMessage.parse` over the full-grammar decoder:
decode, then check `"type" in message` and `"data" in message`; a
`json.JSONDecodeError` is converted to `ValueError`, a membership
failure raises `ValueError`, and a membership test on a non-container
propagates `TypeError`. -/
def parse (message_str : String) : Except PyErr PyVal :=
  match loadsPy message_str with
  | none => .error (.valueError "Failed to parse message")
  | some message =>
      match pyContainsPy message "type" with
      | .error e => .error e
      | .ok false => .error (.valueError "Invalid message format")
      | .ok true =>
          match pyContainsPy message "data" with
          | .error e => .error e
          | .ok false => .error (.valueError "Invalid message format")
          | .ok true => .ok message

end ProtocolMessagePy

/-- The source's `receive_message` over the full-grammar decoder. -/
def receive_messagePy (stream : List Char) : Except PyErr PyVal :=
  match splitAtNewline stream with
  | none => .error .connectionError
  | some (line, _) => ProtocolMessagePy.parse (String.mk line)

/-- Count of opening brackets in a stream: an upper bound on the parse
recursion depth, used to keep the failure characterization below the
interpreter's recursion limit, which the model does not represent. -/
def openBrackets : List Char → Nat
  | [] => 0
  | c :: rest =>
      (if c = '[' ∨ c = lbrace then 1 else 0) + openBrackets rest

/-! ## Game logic (`shared/protocol.py`: `GameLogic` in HW06,
`DiceLogic` in HW07). -/

def ROCK : String := "rock"
def PAPER : String := "paper"
def SCISSORS : String := "scissors"
def VALID_MOVES : List String := [ROCK, PAPER, SCISSORS]

def MSG_COMMIT : String := "COMMIT"
def MSG_MOVE : String := "MOVE"
def MSG_REVEAL : String := "REVEAL"
def MSG_RESULT : String := "RESULT"
def MSG_MATCH_RESULT : String := "MATCH_RESULT"
def MSG_ERROR : String := "ERROR"

namespace GameLogic

/-- The source's `GameLogic.is_valid_move`. -/
def is_valid_move (move : String) : Bool := VALID_MOVES.contains move

def winning_combinations : List (String × String) :=
  [(ROCK, SCISSORS), (SCISSORS, PAPER), (PAPER, ROCK)]

/-- The source's `GameLogic.determine_winner`: 0 tie, 1 player 1 wins, 2 player 2
wins. -/
def determine_winner (move1 move2 : String) : Nat :=
  if move1 == move2 then 0
  else if winning_combinations.contains (move1, move2) then 1
  else 2

end GameLogic

namespace DiceLogic

/-- The source's `DiceLogic.calculate_sum`. -/
def calculate_sum (dice_results : List Int) : Int := dice_results.sum

/-- The source's `DiceLogic.determine_winner`: greater sum wins, equal sums tie. -/
def determine_winner (sum1 sum2 : Int) : Nat :=
  if sum1 > sum2 then 1
  else if sum2 > sum1 then 2
  else 0

end DiceLogic

/-! ## Bob's round handler (`bob/bob.py`, HW06 and HW07).

A round is driven by the parsed messages Bob receives in order (the
model's `incoming` list; an exhausted list models a closed connection)
and by Bob's random draw, passed in explicitly.  The handler returns the
session trace — receives, sends, the commitment verification and the
winner determination — together with the round outcome (`none` on any
error, mirroring the `return`/`except` paths). -/

/-- One observable step of a round session. -/
inductive Act where
  | recvAct (m : Json)
  | sendAct (msgType : String)
  | verifyAct (commitment value nonce : String)
  | winnerAct

/-- Dictionary access as in `message['type']`: `none` models the `KeyError` /
`TypeError` the source lets its `except` clause absorb.  Duplicate keys
resolve to the last binding, as in a Python dict built by `json.loads`. -/
def findKey : JsonMembers → String → Option Json
  | .nil, _ => none
  | .cons k v tl, key =>
      match findKey tl key with
      | some r => some r
      | none => if k == key then some v else none

def getKey : Json → String → Option Json
  | .obj kvs, key => findKey kvs key
  | _, _ => none

/-- Field access `msg['data'][field]`. -/
def getField (m : Json) (field : String) : Option Json :=
  (getKey m "data").bind fun d => getKey d field

def asStr : Json → Option String
  | .str s => some s
  | _ => none

def asInt : Json → Option Int
  | .num n => some n
  | _ => none

/-- Field access `msg['data'][field]`, required to be a string (the source slices or
upper-cases these fields right after extraction, so a non-string raises
into the `except` clause). -/
def getStrField (m : Json) (field : String) : Option String :=
  (getField m field).bind asStr

/-- Python `==` between a decoded JSON scalar and an int (`True == 1`,
`False == 0`). -/
def jsonNumEq (j : Json) (n : Int) : Bool :=
  match j with
  | .num m => m == n
  | .bool b => (if b then (1 : Int) else 0) == n
  | _ => false

/-- Is a decoded JSON value the given string? (`!=` comparison in the
source; a non-string value simply compares unequal). -/
def jsonEqStr (j : Json) (s : String) : Bool :=
  match j with
  | .str x => x == s
  | _ => false

/-- Python `str()` of the scalar that passed the sum equality check. -/
def pyStrNum (j : Json) : String :=
  match j with
  | .num m => String.mk (intChars m)
  | .bool b => if b then "True" else "False"
  | _ => ""

/-- Decoded JSON array of Python ints (what `sum(alice_dice)` needs). -/
def asIntList : JsonList → Option (List Int)
  | .nil => some []
  | .cons (Json.num n) tl =>
      match asIntList tl with
      | some l => some (n :: l)
      | none => none
  | .cons _ _ => none

def asDice : Json → Option (List Int)
  | .arr xs => asIntList xs
  | _ => none

/-- HW06 `BobServer.handle_game`: receive COMMIT, send MOVE, receive
REVEAL, validate the move, verify the commitment, determine the winner
and send RESULT.  Every failure path sends (best-effort) an ERROR message
and produces no outcome. -/
def handleGame06 (incoming : List Json) (bob_move : String) :
    List Act × Option (String × String × Nat) :=
  match incoming with
  | [] => ([Act.sendAct MSG_ERROR], none)
  | m1 :: rest1 =>
    match getKey m1 "type" with
    | none => ([Act.recvAct m1, Act.sendAct MSG_ERROR], none)
    | some t1 =>
      if !jsonEqStr t1 MSG_COMMIT then
        ([Act.recvAct m1, Act.sendAct MSG_ERROR], none)
      else
        match (getField m1 "commitment").bind asStr with
        | none => ([Act.recvAct m1, Act.sendAct MSG_ERROR], none)
        | some alice_commitment =>
          let pre := [Act.recvAct m1, Act.sendAct MSG_MOVE]
          match rest1 with
          | [] => (pre ++ [Act.sendAct MSG_ERROR], none)
          | m2 :: _ =>
            match getKey m2 "type" with
            | none => (pre ++ [Act.recvAct m2, Act.sendAct MSG_ERROR], none)
            | some t2 =>
              if !jsonEqStr t2 MSG_REVEAL then
                (pre ++ [Act.recvAct m2, Act.sendAct MSG_ERROR], none)
              else
                match getStrField m2 "move", getStrField m2 "nonce" with
                | some alice_move, some alice_nonce =>
                  if !GameLogic.is_valid_move alice_move then
                    (pre ++ [Act.recvAct m2, Act.sendAct MSG_ERROR], none)
                  else if !CommitmentScheme.verify alice_commitment
                      alice_move alice_nonce then
                    (pre ++ [Act.recvAct m2,
                      Act.verifyAct alice_commitment alice_move alice_nonce,
                      Act.sendAct MSG_ERROR], none)
                  else
                    (pre ++ [Act.recvAct m2,
                      Act.verifyAct alice_commitment alice_move alice_nonce,
                      Act.winnerAct, Act.sendAct MSG_RESULT],
                     some (alice_move, bob_move,
                       GameLogic.determine_winner alice_move bob_move))
                | _, _ =>
                  (pre ++ [Act.recvAct m2, Act.sendAct MSG_ERROR], none)

/-- HW07 `BobServer.handle_game`: receive COMMIT (with the dice count),
roll and send RESULT with Bob's sum, receive REVEAL, check the revealed
sum against the revealed dice, verify the commitment over
`str(alice_sum)`, determine the winner and send the per-game
MATCH_RESULT.  `roll` is Bob's random draw for the declared dice
count. -/
def handleGame07 (incoming : List Json) (roll : Int → List Int) :
    List Act × Option (Int × Int × Nat) :=
  match incoming with
  | [] => ([Act.sendAct MSG_ERROR], none)
  | m1 :: rest1 =>
    match getKey m1 "type" with
    | none => ([Act.recvAct m1, Act.sendAct MSG_ERROR], none)
    | some t1 =>
      if !jsonEqStr t1 MSG_COMMIT then
        ([Act.recvAct m1, Act.sendAct MSG_ERROR], none)
      else
        match (getField m1 "commitment").bind asStr,
              (getField m1 "num_dice").bind asInt with
        | some alice_commitment, some num_dice =>
          let bob_dice := roll num_dice
          let bob_sum := DiceLogic.calculate_sum bob_dice
          let pre := [Act.recvAct m1, Act.sendAct MSG_RESULT]
          match rest1 with
          | [] => (pre ++ [Act.sendAct MSG_ERROR], none)
          | m2 :: _ =>
            match getKey m2 "type" with
            | none => (pre ++ [Act.recvAct m2, Act.sendAct MSG_ERROR], none)
            | some t2 =>
              if !jsonEqStr t2 MSG_REVEAL then
                (pre ++ [Act.recvAct m2, Act.sendAct MSG_ERROR], none)
              else
                match getField m2 "alice_sum",
                      (getField m2 "alice_dice").bind asDice,
                      getStrField m2 "nonce" with
                | some alice_sum, some alice_dice, some alice_nonce =>
                  let expected_sum := DiceLogic.calculate_sum alice_dice
                  if !jsonNumEq alice_sum expected_sum then
                    (pre ++ [Act.recvAct m2, Act.sendAct MSG_ERROR], none)
                  else if !CommitmentScheme.verify alice_commitment
                      (pyStrNum alice_sum) alice_nonce then
                    (pre ++ [Act.recvAct m2,
                      Act.verifyAct alice_commitment (pyStrNum alice_sum)
                        alice_nonce,
                      Act.sendAct MSG_ERROR], none)
                  else
                    (pre ++ [Act.recvAct m2,
                      Act.verifyAct alice_commitment (pyStrNum alice_sum)
                        alice_nonce,
                      Act.winnerAct, Act.sendAct MSG_MATCH_RESULT],
                     some (expected_sum, bob_sum,
                       DiceLogic.determine_winner expected_sum bob_sum))
                | _, _, _ =>
                  (pre ++ [Act.recvAct m2, Act.sendAct MSG_ERROR], none)
        | _, _ => ([Act.recvAct m1, Act.sendAct MSG_ERROR], none)

/-! ## Match orchestration (HW07 `bob.run_match` and
`alice.play_match`).

Both loops are driven by the per-game results (`handle_game` /
`play_game` returning an outcome or `none`); the model abstracts each
game to its result and mirrors the two control flows: Bob `continue`s
past a failed game, Alice `return`s, aborting the match. -/

structure Tally where
  alice_wins : Nat
  bob_wins : Nat
  ties : Nat

/-- The per-round tally update both loops share: winner 1 is Alice (the
Committer), winner 2 is Bob (the Responder), everything else a tie. -/
def updateTally (t : Tally) (winner : Nat) : Tally :=
  if winner == 1 then { t with alice_wins := t.alice_wins + 1 }
  else if winner == 2 then { t with bob_wins := t.bob_wins + 1 }
  else { t with ties := t.ties + 1 }

/-- HW07 `BobServer.run_match` over the scripted per-game results:
every scheduled game is attempted (a failed game is skipped with
`continue`, not counted); returns the final tally and the number of
games attempted. -/
def bobRunMatch : List (Option (Int × Int × Nat)) → Tally → Tally × Nat
  | [], t => (t, 0)
  | none :: rest, t =>
      let (t', n) := bobRunMatch rest t
      (t', n + 1)
  | some (_, _, w) :: rest, t =>
      let (t', n) := bobRunMatch rest (updateTally t w)
      (t', n + 1)

/-- HW07 `AliceClient.play_match`: the first failed game aborts the whole
match (`return`); returns `some` final tally only if every game
completed, and the number of games attempted. -/
def alicePlayMatch : List (Option (Int × Int × Nat)) → Tally →
    Option Tally × Nat
  | [], t => (some t, 0)
  | none :: _, _ => (none, 1)
  | some (_, _, w) :: rest, t =>
      let (r, n) := alicePlayMatch rest (updateTally t w)
      (r, n + 1)

/-- The final match verdict printed by both sides: strictly more Alice
wins → Alice (the Committer), strictly more Bob wins → Bob (the
Responder), otherwise a tie. -/
inductive Verdict where
  | committer
  | responder
  | tie

def matchVerdict (t : Tally) : Verdict :=
  if t.alice_wins > t.bob_wins then .committer
  else if t.bob_wins > t.alice_wins then .responder
  else .tie

/-- Completed rounds in a result script. -/
def countSome : List (Option (Int × Int × Nat)) → Nat
  | [] => 0
  | none :: rest => countSome rest
  | some _ :: rest => countSome rest + 1

/-- COMMIT message of the C4 counterexample round: a commitment to the
sum 21 with three declared dice. -/
def cexCommitMsg : Json :=
  .obj (.cons "type" (.str "COMMIT")
    (.cons "data" (.obj
      (.cons "commitment" (.str (CommitmentScheme.commit "21" "00"))
        (.cons "num_dice" (.num 3) .nil))) .nil))

/-- REVEAL message of the C4 counterexample round: dice `[7,7,7]` — each
die outside the 1..6 domain — with the matching sum 21. -/
def cexRevealMsg : Json :=
  .obj (.cons "type" (.str "REVEAL")
    (.cons "data" (.obj
      (.cons "alice_sum" (.num 21)
        (.cons "alice_dice"
          (.arr (.cons (.num 7) (.cons (.num 7) (.cons (.num 7) .nil))))
          (.cons "nonce" (.str "00") .nil)))) .nil))

/-- An honest HW06 COMMIT message (commitment to "rock" with nonce
"n1"). -/
def wCommitMsg06 : Json :=
  .obj (.cons "type" (.str "COMMIT")
    (.cons "data" (.obj
      (.cons "commitment" (.str (CommitmentScheme.commit "rock" "n1"))
        .nil)) .nil))

/-- The matching honest HW06 REVEAL message. -/
def wRevealMsg06 : Json :=
  .obj (.cons "type" (.str "REVEAL")
    (.cons "data" (.obj
      (.cons "move" (.str "rock") (.cons "nonce" (.str "n1") .nil)))
      .nil))

/-- An HW06 REVEAL message with an out-of-domain move. -/
def wBadMoveMsg06 : Json :=
  .obj (.cons "type" (.str "REVEAL")
    (.cons "data" (.obj
      (.cons "move" (.str "lizard") (.cons "nonce" (.str "x") .nil)))
      .nil))

/-- An HW07 REVEAL message whose claimed sum does not match its dice. -/
def wBadSumMsg07 : Json :=
  .obj (.cons "type" (.str "REVEAL")
    (.cons "data" (.obj
      (.cons "alice_sum" (.num 10)
        (.cons "alice_dice" (.arr (.cons (.num 1) (.cons (.num 2) .nil)))
          (.cons "nonce" (.str "x") .nil)))) .nil))

/-- A continuation that cannot extend a digit run (used to state the
number round-trip compositionally). -/
def headNotDigit : List Char → Bool
  | [] => true
  | c :: _ => !isDigitCh c

/-- Is every character a decimal digit? -/
def allDigits : List Char → Bool
  | [] => true
  | c :: rest => isDigitCh c && allDigits rest

mutual
/-- Node count of a JSON value (the fuel a parse of its printed form
needs). -/
def nodesV : Json → Nat
  | .null => 1
  | .bool _ => 1
  | .num _ => 1
  | .str _ => 1
  | .arr xs => 1 + nodesL xs
  | .obj kvs => 1 + nodesM kvs
def nodesL : JsonList → Nat
  | .nil => 0
  | .cons x xs => 1 + nodesV x + nodesL xs
def nodesM : JsonMembers → Nat
  | .nil => 0
  | .cons _ v ms => 1 + nodesV v + nodesM ms
end

/-! # Theorems -/

/-- C1: for every value and nonce, `verify (commit value nonce) value
nonce` returns `true`: `verify` recomputes the SHA-256 commitment over
the UTF-8 encoding of the value, the separator and the nonce, and
compares it for equality with the given commitment, so an honestly
produced commitment always verifies against its own pair. -/
theorem verify_commit_self (value nonce : String) :
    CommitmentScheme.verify (CommitmentScheme.commit value nonce) value
      nonce = true := by
  simp [CommitmentScheme.verify]

/-- C2 counterexample: binding fails as universally stated, because the
separator `||` can occur inside the committed data: the distinct pairs
("a", "b||c") and ("a||b", "c") produce the same separator-joined string,
so the second verifies against the first's commitment. -/
theorem commit_binding_cex :
    ("a||b", "c") ≠ ("a", "b||c") ∧
    CommitmentScheme.verify (CommitmentScheme.commit "a" "b||c") "a||b"
      "c" = true :=
  ⟨by decide, by decide⟩

/-- C2 (amended): `verify (commit value nonce) value' nonce'` returns
`false` whenever SHA-256 hashes the two separator-joined strings to
different digests; and it returns `true` whenever the two joined strings
coincide — which distinct pairs can achieve, since `||` may occur inside
a value or nonce.  Binding therefore holds only up to digest equality of
the joined strings, not for every distinct pair. -/
theorem commit_binding_amended (value nonce value' nonce' : String) :
    (sha256hex (utf8Encode (value' ++ "||" ++ nonce')) ≠
        sha256hex (utf8Encode (value ++ "||" ++ nonce)) →
      CommitmentScheme.verify (CommitmentScheme.commit value nonce)
        value' nonce' = false) ∧
    (value' ++ "||" ++ nonce' = value ++ "||" ++ nonce →
      CommitmentScheme.verify (CommitmentScheme.commit value nonce)
        value' nonce' = true) := by
  constructor
  · intro h
    simp [CommitmentScheme.verify, CommitmentScheme.commit]
    exact fun hh => absurd hh.symm h
  · intro h
    simp [CommitmentScheme.verify, CommitmentScheme.commit, h]

/-- Witness for C2 (amended) at concrete inputs: revealing "paper" for a
"rock" commitment is rejected, and the separator-ambiguous pair
verifies. -/
theorem commit_binding_amended_witness :
    CommitmentScheme.verify (CommitmentScheme.commit "rock" "00") "paper"
      "00" = false ∧
    CommitmentScheme.verify (CommitmentScheme.commit "a" "b||c") "a||b"
      "c" = true :=
  ⟨(commit_binding_amended "rock" "00" "paper" "00").1 (by decide),
   (commit_binding_amended "a" "b||c" "a||b" "c").2 (by decide)⟩

/-- C5: `determine_winner` is the stated deterministic comparison on the
valid domain: equal moves tie; player 1 wins exactly on (rock, scissors),
(scissors, paper), (paper, rock); otherwise player 2 wins.  In the dice
variant the greater sum wins and equal sums tie. -/
theorem determine_winner_spec (move1 move2 : String) (s1 s2 : Int)
    (h1 : GameLogic.is_valid_move move1 = true)
    (h2 : GameLogic.is_valid_move move2 = true) :
    (GameLogic.determine_winner move1 move2 = 0 ↔ move1 = move2) ∧
    (GameLogic.determine_winner move1 move2 = 1 ↔
      ((move1 = ROCK ∧ move2 = SCISSORS) ∨
       (move1 = SCISSORS ∧ move2 = PAPER) ∨
       (move1 = PAPER ∧ move2 = ROCK))) ∧
    (GameLogic.determine_winner move1 move2 = 2 ↔
      (move1 ≠ move2 ∧
       ¬((move1 = ROCK ∧ move2 = SCISSORS) ∨
         (move1 = SCISSORS ∧ move2 = PAPER) ∨
         (move1 = PAPER ∧ move2 = ROCK)))) ∧
    (DiceLogic.determine_winner s1 s2 = 1 ↔ s1 > s2) ∧
    (DiceLogic.determine_winner s1 s2 = 2 ↔ s2 > s1) ∧
    (DiceLogic.determine_winner s1 s2 = 0 ↔ s1 = s2) := by
  have hm1 : move1 = ROCK ∨ move1 = PAPER ∨ move1 = SCISSORS := by
    simpa [GameLogic.is_valid_move, VALID_MOVES, List.contains,
      or_assoc] using h1
  have hm2 : move2 = ROCK ∨ move2 = PAPER ∨ move2 = SCISSORS := by
    simpa [GameLogic.is_valid_move, VALID_MOVES, List.contains,
      or_assoc] using h2
  refine ⟨?_, ?_, ?_, ?_, ?_, ?_⟩
  · rcases hm1 with h | h | h <;> rcases hm2 with h' | h' | h' <;>
      subst h <;> subst h' <;> decide
  · rcases hm1 with h | h | h <;> rcases hm2 with h' | h' | h' <;>
      subst h <;> subst h' <;> decide
  · rcases hm1 with h | h | h <;> rcases hm2 with h' | h' | h' <;>
      subst h <;> subst h' <;> decide
  · simp only [DiceLogic.determine_winner]
    split
    · simpa using ‹s1 > s2›
    · split <;> omega
  · simp only [DiceLogic.determine_winner]
    split
    · constructor
      · intro h; omega
      · intro h; omega
    · split <;> omega
  · simp only [DiceLogic.determine_winner]
    split
    · constructor <;> intro h <;> omega
    · split <;> constructor <;> intro h <;> omega

/-- Witness for C5 at concrete inputs: rock versus scissors is a win for
the first player, and dice sums 8 versus 6 likewise. -/
theorem determine_winner_spec_witness :
    GameLogic.is_valid_move "rock" = true ∧
    GameLogic.is_valid_move "scissors" = true ∧
    GameLogic.determine_winner "rock" "scissors" = 1 ∧
    DiceLogic.determine_winner 8 6 = 1 := by
  have h := determine_winner_spec "rock" "scissors" 8 6 (by decide)
    (by decide)
  exact ⟨by decide, by decide, h.2.1.mpr (Or.inl ⟨rfl, rfl⟩),
    h.2.2.2.1.mpr (by decide)⟩

/-- C10: `ProtocolMessage.parse` on well-formed JSON that is not an
object: a JSON string containing both "type" and "data" as substrings is
returned as a bare string (the membership check is Python's `in`), and a
JSON number makes the membership test raise `TypeError` rather than the
documented `ValueError`. -/
theorem parse_nonobject :
    ProtocolMessage.parse "\"type data\"" = .ok (.str "type data") ∧
    ProtocolMessage.parse "5" = .error .typeError :=
  ⟨rfl, rfl⟩

/-- C8: on a failed round the two sides diverge: Bob (the Responder)
skips the round — it is not counted in the tally — and keeps going until
the configured round count is exhausted, while Alice (the Committer)
aborts the whole match at the first failed round, attempting no further
rounds. -/
theorem bobRunMatch_snd (rs : List (Option (Int × Int × Nat))) :
    ∀ t, (bobRunMatch rs t).2 = rs.length := by
  induction rs with
  | nil => intro t; rfl
  | cons x rest ih =>
      intro t
      cases x with
      | none => simp [bobRunMatch, ih]
      | some o => obtain ⟨a, b, w⟩ := o; simp [bobRunMatch, ih]

theorem bobRunMatch_fst_skip (pre post : List (Option (Int × Int × Nat))) :
    ∀ t, (bobRunMatch (pre ++ none :: post) t).1 =
      (bobRunMatch (pre ++ post) t).1 := by
  induction pre with
  | nil => intro t; simp [bobRunMatch]
  | cons x rest ih =>
      intro t
      cases x with
      | none =>
          simp only [List.cons_append, bobRunMatch]
          exact ih t
      | some o =>
          obtain ⟨a, b, w⟩ := o
          simp only [List.cons_append, bobRunMatch]
          exact ih (updateTally t w)

theorem alicePlayMatch_abort (pre post : List (Option (Int × Int × Nat)))
    (hpre : ∀ x ∈ pre, x.isSome) :
    ∀ t, (alicePlayMatch (pre ++ none :: post) t).1 = none ∧
      (alicePlayMatch (pre ++ none :: post) t).2 = pre.length + 1 := by
  induction pre with
  | nil => intro t; simp [alicePlayMatch]
  | cons x rest ih =>
      cases x with
      | none => exact absurd (hpre none (by simp)) (by simp)
      | some o =>
          obtain ⟨a, b, w⟩ := o
          intro t
          have h := ih (fun y hy => hpre y (by simp [hy]))
            (updateTally t w)
          simp [alicePlayMatch, h.1, h.2]

theorem failure_asymmetry (pre post : List (Option (Int × Int × Nat)))
    (t t' : Tally) (hpre : ∀ x ∈ pre, x.isSome) :
    (bobRunMatch (pre ++ none :: post) t).2 =
      pre.length + 1 + post.length ∧
    (bobRunMatch (pre ++ none :: post) t).1 =
      (bobRunMatch (pre ++ post) t).1 ∧
    (alicePlayMatch (pre ++ none :: post) t').1 = none ∧
    (alicePlayMatch (pre ++ none :: post) t').2 = pre.length + 1 := by
  refine ⟨?_, bobRunMatch_fst_skip pre post t,
    (alicePlayMatch_abort pre post hpre t').1,
    (alicePlayMatch_abort pre post hpre t').2⟩
  rw [bobRunMatch_snd]
  simp [List.length_append]
  omega

/-- Witness for C8: in a three-round script whose second round fails,
Bob attempts all three rounds and tallies the two completed ones, while
Alice stops after round two. -/
theorem failure_asymmetry_witness :
    (bobRunMatch [some (1, 2, 2), none, some (3, 3, 0)] ⟨0, 0, 0⟩).2 =
      3 ∧
    (bobRunMatch [some (1, 2, 2), none, some (3, 3, 0)] ⟨0, 0, 0⟩).1 =
      (bobRunMatch [some (1, 2, 2), some (3, 3, 0)] ⟨0, 0, 0⟩).1 ∧
    (alicePlayMatch [some (1, 2, 2), none, some (3, 3, 0)]
      ⟨0, 0, 0⟩).1 = none ∧
    (alicePlayMatch [some (1, 2, 2), none, some (3, 3, 0)]
      ⟨0, 0, 0⟩).2 = 2 := by
  have h := failure_asymmetry [some (1, 2, 2)] [some (3, 3, 0)]
    ⟨0, 0, 0⟩ ⟨0, 0, 0⟩ (by decide)
  exact ⟨h.1, h.2.1, h.2.2.1, h.2.2.2⟩

/-- C9: each completed round increments exactly one tally counter, chosen
by its winner; the final verdict is Committer exactly when Alice's wins
exceed Bob's, Responder exactly when Bob's exceed Alice's, and a tie when
they are equal; and the scripted 5-round match with winners
[committer, tie, responder, committer, committer] tallies 3/1/1 with
final verdict committer. -/
theorem tally_and_verdict :
    (∀ rs t, ((bobRunMatch rs t).1.alice_wins +
        (bobRunMatch rs t).1.bob_wins + (bobRunMatch rs t).1.ties) =
      (t.alice_wins + t.bob_wins + t.ties) + countSome rs) ∧
    (∀ t, updateTally t 1 = ⟨t.alice_wins + 1, t.bob_wins, t.ties⟩) ∧
    (∀ t, updateTally t 2 = ⟨t.alice_wins, t.bob_wins + 1, t.ties⟩) ∧
    (∀ t, updateTally t 0 = ⟨t.alice_wins, t.bob_wins, t.ties + 1⟩) ∧
    (∀ t, matchVerdict t = .committer ↔ t.alice_wins > t.bob_wins) ∧
    (∀ t, matchVerdict t = .responder ↔ t.bob_wins > t.alice_wins) ∧
    (∀ t, matchVerdict t = .tie ↔ t.alice_wins = t.bob_wins) ∧
    (bobRunMatch [some (0, 0, 1), some (0, 0, 0), some (0, 0, 2),
        some (0, 0, 1), some (0, 0, 1)] ⟨0, 0, 0⟩).1 = ⟨3, 1, 1⟩ ∧
    matchVerdict ⟨3, 1, 1⟩ = .committer := by
  refine ⟨?_, ?_, ?_, ?_, ?_, ?_, ?_, rfl, rfl⟩
  · intro rs
    induction rs with
    | nil => intro t; simp [bobRunMatch, countSome]
    | cons x rest ih =>
        intro t
        cases x with
        | none => simp [bobRunMatch, countSome, ih]
        | some o =>
            obtain ⟨a, b, w⟩ := o
            simp only [bobRunMatch, countSome, ih]
            simp only [updateTally]
            split
            · simp; omega
            · split <;> simp <;> omega
  · intro t; rfl
  · intro t; rfl
  · intro t; rfl
  · intro t
    simp only [matchVerdict]
    split
    · simpa using ‹t.alice_wins > t.bob_wins›
    · split <;> simp <;> omega
  · intro t
    simp only [matchVerdict]
    split
    · constructor <;> intro h <;> [skip; omega]
      · cases h
    · split <;> simp <;> omega
  · intro t
    simp only [matchVerdict]
    split
    · constructor <;> intro h <;> [cases h; omega]
    · split
      · constructor <;> intro h <;> [cases h; omega]
      · simp; omega

/-- A REVEAL-typed message fails the COMMIT type check. -/
theorem jsonEqStr_reveal_not_commit (t : Json)
    (hr : jsonEqStr t MSG_REVEAL = true) :
    jsonEqStr t MSG_COMMIT = false := by
  cases t <;> first
    | rfl
    | (simp only [jsonEqStr, beq_iff_eq, beq_eq_false_iff_ne] at hr ⊢
       subst hr
       decide)

/-- Shape of any successful HW06 round: the incoming script had at least
two messages, the second was REVEAL-typed, and the trace sends Bob's MOVE
strictly before receiving it. -/
theorem handleGame06_some (incoming : List Json) (bob_move : String)
    (h : (handleGame06 incoming bob_move).2.isSome = true) :
    ∃ m1 m2 rest t2 tail, incoming = m1 :: m2 :: rest ∧
      getKey m2 "type" = some t2 ∧ jsonEqStr t2 MSG_REVEAL = true ∧
      (handleGame06 incoming bob_move).1 =
        Act.recvAct m1 :: Act.sendAct MSG_MOVE :: Act.recvAct m2 ::
          tail := by
  cases incoming with
  | nil => simp [handleGame06] at h
  | cons m1 rest1 =>
    rcases e1 : getKey m1 "type" with _ | t1
    · simp [handleGame06, e1] at h
    · rcases e2 : jsonEqStr t1 MSG_COMMIT
      · simp [handleGame06, e1, e2] at h
      · rcases e3 : (getField m1 "commitment").bind asStr with _ | c
        · simp [handleGame06, e1, e2, e3] at h
        · cases rest1 with
          | nil => simp [handleGame06, e1, e2, e3] at h
          | cons m2 rest =>
            rcases e4 : getKey m2 "type" with _ | t2
            · simp [handleGame06, e1, e2, e3, e4] at h
            · rcases e5 : jsonEqStr t2 MSG_REVEAL
              · simp [handleGame06, e1, e2, e3, e4, e5] at h
              · rcases e6 : getStrField m2 "move" with _ | mv
                · simp [handleGame06, e1, e2, e3, e4, e5, e6] at h
                · rcases e7 : getStrField m2 "nonce" with _ | nn
                  · simp [handleGame06, e1, e2, e3, e4, e5, e6, e7] at h
                  · rcases e8 : GameLogic.is_valid_move mv
                    · simp [handleGame06, e1, e2, e3, e4, e5, e6, e7,
                        e8] at h
                    · rcases e9 : CommitmentScheme.verify c mv nn
                      · simp [handleGame06, e1, e2, e3, e4, e5, e6, e7,
                          e8, e9] at h
                      · exact ⟨m1, m2, rest, t2,
                          [Act.verifyAct c mv nn, Act.winnerAct,
                            Act.sendAct MSG_RESULT], rfl, e4, e5,
                          by simp [handleGame06, e1, e2, e3, e4, e5, e6,
                            e7, e8, e9]⟩

/-- An HW06 session whose first message is REVEAL-typed is rejected at
once with an ERROR and no outcome. -/
theorem handleGame06_reject_first (m1 : Json) (rest : List Json)
    (bob_move : String) (t1 : Json) (e : getKey m1 "type" = some t1)
    (hr : jsonEqStr t1 MSG_REVEAL = true) :
    handleGame06 (m1 :: rest) bob_move =
      ([Act.recvAct m1, Act.sendAct MSG_ERROR], none) := by
  simp [handleGame06, e, jsonEqStr_reveal_not_commit t1 hr]

/-- Shape of any successful HW07 round: at least two incoming messages,
the second REVEAL-typed, and Bob's RESULT (his dice sum) sent strictly
before the reveal is received. -/
theorem handleGame07_some (incoming : List Json) (roll : Int → List Int)
    (h : (handleGame07 incoming roll).2.isSome = true) :
    ∃ m1 m2 rest t2 tail, incoming = m1 :: m2 :: rest ∧
      getKey m2 "type" = some t2 ∧ jsonEqStr t2 MSG_REVEAL = true ∧
      (handleGame07 incoming roll).1 =
        Act.recvAct m1 :: Act.sendAct MSG_RESULT :: Act.recvAct m2 ::
          tail := by
  cases incoming with
  | nil => simp [handleGame07] at h
  | cons m1 rest1 =>
    rcases e1 : getKey m1 "type" with _ | t1
    · simp [handleGame07, e1] at h
    · rcases e2 : jsonEqStr t1 MSG_COMMIT
      · simp [handleGame07, e1, e2] at h
      · rcases e3 : (getField m1 "commitment").bind asStr with _ | c
        · simp [handleGame07, e1, e2, e3] at h
        · rcases e3b : (getField m1 "num_dice").bind asInt with _ | nd
          · simp [handleGame07, e1, e2, e3, e3b] at h
          · cases rest1 with
            | nil => simp [handleGame07, e1, e2, e3, e3b] at h
            | cons m2 rest =>
              rcases e4 : getKey m2 "type" with _ | t2
              · simp [handleGame07, e1, e2, e3, e3b, e4] at h
              · rcases e5 : jsonEqStr t2 MSG_REVEAL
                · simp [handleGame07, e1, e2, e3, e3b, e4, e5] at h
                · rcases e6 : getField m2 "alice_sum" with _ | s
                  · simp [handleGame07, e1, e2, e3, e3b, e4, e5, e6] at h
                  · rcases e7 : (getField m2 "alice_dice").bind asDice
                      with _ | d
                    · simp [handleGame07, e1, e2, e3, e3b, e4, e5, e6,
                        e7] at h
                    · rcases e8 : getStrField m2 "nonce" with _ | nn
                      · simp [handleGame07, e1, e2, e3, e3b, e4, e5, e6,
                          e7, e8] at h
                      · rcases e9 : jsonNumEq s
                          (DiceLogic.calculate_sum d)
                        · simp [handleGame07, e1, e2, e3, e3b, e4, e5,
                            e6, e7, e8, e9] at h
                        · rcases e10 : CommitmentScheme.verify c
                            (pyStrNum s) nn
                          · simp [handleGame07, e1, e2, e3, e3b, e4, e5,
                              e6, e7, e8, e9, e10] at h
                          · exact ⟨m1, m2, rest, t2,
                              [Act.verifyAct c (pyStrNum s) nn,
                                Act.winnerAct,
                                Act.sendAct MSG_MATCH_RESULT], rfl, e4,
                              e5,
                              by simp [handleGame07, e1, e2, e3, e3b,
                                e4, e5, e6, e7, e8, e9, e10]⟩

/-- An HW07 session whose first message is REVEAL-typed is rejected at
once with an ERROR and no outcome. -/
theorem handleGame07_reject_first (m1 : Json) (rest : List Json)
    (roll : Int → List Int) (t1 : Json) (e : getKey m1 "type" = some t1)
    (hr : jsonEqStr t1 MSG_REVEAL = true) :
    handleGame07 (m1 :: rest) roll =
      ([Act.recvAct m1, Act.sendAct MSG_ERROR], none) := by
  simp [handleGame07, e, jsonEqStr_reveal_not_commit t1 hr]

/-- C3: in every round the Responder's value-carrying message (MOVE in
HW06, RESULT with Bob's sum in HW07) is sent strictly before the
Committer's REVEAL is received: a completed round's trace always has the
send at position 1 and the receive of the REVEAL-typed message at
position 2, and a REVEAL arriving as the first message is rejected with
an ERROR and produces no outcome. -/
theorem respond_before_reveal (incoming : List Json) (bob_move : String)
    (roll : Int → List Int) :
    ((handleGame06 incoming bob_move).2.isSome = true →
      ∃ m1 m2 rest t2 tail, incoming = m1 :: m2 :: rest ∧
        getKey m2 "type" = some t2 ∧ jsonEqStr t2 MSG_REVEAL = true ∧
        (handleGame06 incoming bob_move).1 =
          Act.recvAct m1 :: Act.sendAct MSG_MOVE :: Act.recvAct m2 ::
            tail) ∧
    (∀ m1 rest t1, getKey m1 "type" = some t1 →
      jsonEqStr t1 MSG_REVEAL = true →
      handleGame06 (m1 :: rest) bob_move =
        ([Act.recvAct m1, Act.sendAct MSG_ERROR], none)) ∧
    ((handleGame07 incoming roll).2.isSome = true →
      ∃ m1 m2 rest t2 tail, incoming = m1 :: m2 :: rest ∧
        getKey m2 "type" = some t2 ∧ jsonEqStr t2 MSG_REVEAL = true ∧
        (handleGame07 incoming roll).1 =
          Act.recvAct m1 :: Act.sendAct MSG_RESULT :: Act.recvAct m2 ::
            tail) ∧
    (∀ m1 rest t1, getKey m1 "type" = some t1 →
      jsonEqStr t1 MSG_REVEAL = true →
      handleGame07 (m1 :: rest) roll =
        ([Act.recvAct m1, Act.sendAct MSG_ERROR], none)) :=
  ⟨handleGame06_some incoming bob_move,
   fun m1 rest t1 e hr => handleGame06_reject_first m1 rest bob_move t1
     e hr,
   handleGame07_some incoming roll,
   fun m1 rest t1 e hr => handleGame07_reject_first m1 rest roll t1 e
     hr⟩

/-- Witness for C3: the honest HW06 round succeeds with the MOVE sent
before the REVEAL is received, and a REVEAL sent first is rejected in
both variants. -/
theorem respond_before_reveal_witness :
    (∃ m1 m2 rest t2 tail,
      ([wCommitMsg06, wRevealMsg06] : List Json) = m1 :: m2 :: rest ∧
      getKey m2 "type" = some t2 ∧ jsonEqStr t2 MSG_REVEAL = true ∧
      (handleGame06 [wCommitMsg06, wRevealMsg06] "paper").1 =
        Act.recvAct m1 :: Act.sendAct MSG_MOVE :: Act.recvAct m2 ::
          tail) ∧
    handleGame06 [wRevealMsg06] "paper" =
      ([Act.recvAct wRevealMsg06, Act.sendAct MSG_ERROR], none) ∧
    handleGame07 [wBadSumMsg07] (fun _ => [1]) =
      ([Act.recvAct wBadSumMsg07, Act.sendAct MSG_ERROR], none) :=
  ⟨(respond_before_reveal [wCommitMsg06, wRevealMsg06] "paper"
      (fun _ => [1])).1 (by rfl),
   (respond_before_reveal [wCommitMsg06, wRevealMsg06] "paper"
      (fun _ => [1])).2.1 wRevealMsg06 [] (.str "REVEAL") rfl rfl,
   (respond_before_reveal [wCommitMsg06, wRevealMsg06] "paper"
      (fun _ => [1])).2.2.2 wBadSumMsg07 [] (.str "REVEAL") rfl rfl⟩

/-- An HW06 round revealing an out-of-domain move ends in an ERROR with
no outcome — either after the reveal (trace without any verification or
winner act) or already in the commit phase. -/
theorem handleGame06_invalid_move (m1 m2 : Json) (rest : List Json)
    (bob_move mv : String) (hmv : getStrField m2 "move" = some mv)
    (hbad : GameLogic.is_valid_move mv = false) :
    handleGame06 (m1 :: m2 :: rest) bob_move =
      ([Act.recvAct m1, Act.sendAct MSG_MOVE, Act.recvAct m2,
        Act.sendAct MSG_ERROR], none) ∨
    handleGame06 (m1 :: m2 :: rest) bob_move =
      ([Act.recvAct m1, Act.sendAct MSG_ERROR], none) := by
  rcases e1 : getKey m1 "type" with _ | t1
  · right; simp [handleGame06, e1]
  · rcases e2 : jsonEqStr t1 MSG_COMMIT
    · right; simp [handleGame06, e1, e2]
    · rcases e3 : (getField m1 "commitment").bind asStr with _ | c
      · right; simp [handleGame06, e1, e2, e3]
      · rcases e4 : getKey m2 "type" with _ | t2
        · left; simp [handleGame06, e1, e2, e3, e4]
        · rcases e5 : jsonEqStr t2 MSG_REVEAL
          · left; simp [handleGame06, e1, e2, e3, e4, e5]
          · rcases e7 : getStrField m2 "nonce" with _ | nn
            · left; simp [handleGame06, e1, e2, e3, e4, e5, hmv, e7]
            · left
              simp [handleGame06, e1, e2, e3, e4, e5, hmv, e7, hbad]

/-- In HW06 every value that reaches commitment verification has already
passed the move-domain check. -/
theorem handleGame06_verify_valid (incoming : List Json)
    (bob_move : String) (c v n : String)
    (h : Act.verifyAct c v n ∈ (handleGame06 incoming bob_move).1) :
    GameLogic.is_valid_move v = true := by
  cases incoming with
  | nil => simp [handleGame06] at h
  | cons m1 rest1 =>
    rcases e1 : getKey m1 "type" with _ | t1
    · simp [handleGame06, e1] at h
    · rcases e2 : jsonEqStr t1 MSG_COMMIT
      · simp [handleGame06, e1, e2] at h
      · rcases e3 : (getField m1 "commitment").bind asStr with _ | cc
        · simp [handleGame06, e1, e2, e3] at h
        · cases rest1 with
          | nil => simp [handleGame06, e1, e2, e3] at h
          | cons m2 rest =>
            rcases e4 : getKey m2 "type" with _ | t2
            · simp [handleGame06, e1, e2, e3, e4] at h
            · rcases e5 : jsonEqStr t2 MSG_REVEAL
              · simp [handleGame06, e1, e2, e3, e4, e5] at h
              · rcases e6 : getStrField m2 "move" with _ | mv
                · simp [handleGame06, e1, e2, e3, e4, e5, e6] at h
                · rcases e7 : getStrField m2 "nonce" with _ | nn
                  · simp [handleGame06, e1, e2, e3, e4, e5, e6, e7] at h
                  · rcases e8 : GameLogic.is_valid_move mv
                    · simp [handleGame06, e1, e2, e3, e4, e5, e6, e7,
                        e8] at h
                    · rcases e9 : CommitmentScheme.verify cc mv nn <;>
                        · simp [handleGame06, e1, e2, e3, e4, e5, e6,
                            e7, e8, e9] at h
                          obtain ⟨-, hv, -⟩ := h
                          subst hv
                          exact e8

/-- An HW07 round revealing a sum inconsistent with its dice ends in an
ERROR with no outcome — either after the reveal (trace without any
verification or winner act) or already in the commit phase. -/
theorem handleGame07_bad_sum (m1 m2 : Json) (rest : List Json)
    (roll : Int → List Int) (s : Json) (d : List Int)
    (hs : getField m2 "alice_sum" = some s)
    (hd : (getField m2 "alice_dice").bind asDice = some d)
    (hbad : jsonNumEq s (DiceLogic.calculate_sum d) = false) :
    handleGame07 (m1 :: m2 :: rest) roll =
      ([Act.recvAct m1, Act.sendAct MSG_RESULT, Act.recvAct m2,
        Act.sendAct MSG_ERROR], none) ∨
    handleGame07 (m1 :: m2 :: rest) roll =
      ([Act.recvAct m1, Act.sendAct MSG_ERROR], none) := by
  rcases e1 : getKey m1 "type" with _ | t1
  · right; simp [handleGame07, e1]
  · rcases e2 : jsonEqStr t1 MSG_COMMIT
    · right; simp [handleGame07, e1, e2]
    · rcases e3 : (getField m1 "commitment").bind asStr with _ | c
      · right; simp [handleGame07, e1, e2, e3]
      · rcases e3b : (getField m1 "num_dice").bind asInt with _ | nd
        · right; simp [handleGame07, e1, e2, e3, e3b]
        · rcases e4 : getKey m2 "type" with _ | t2
          · left; simp [handleGame07, e1, e2, e3, e3b, e4]
          · rcases e5 : jsonEqStr t2 MSG_REVEAL
            · left; simp [handleGame07, e1, e2, e3, e3b, e4, e5]
            · rcases e8 : getStrField m2 "nonce" with _ | nn
              · left
                simp [handleGame07, e1, e2, e3, e3b, e4, e5, hs, hd, e8]
              · left
                simp [handleGame07, e1, e2, e3, e3b, e4, e5, hs, hd,
                  e8, hbad]

/-- In HW07 every value that reaches commitment verification is the
string form of a revealed sum that already passed the dice-consistency
check; no per-die range check is ever performed. -/
theorem handleGame07_verify_consistent (incoming : List Json)
    (roll : Int → List Int) (c v n : String)
    (h : Act.verifyAct c v n ∈ (handleGame07 incoming roll).1) :
    ∃ m1 m2 rest s d, incoming = m1 :: m2 :: rest ∧
      getField m2 "alice_sum" = some s ∧
      (getField m2 "alice_dice").bind asDice = some d ∧
      jsonNumEq s (DiceLogic.calculate_sum d) = true ∧
      v = pyStrNum s := by
  cases incoming with
  | nil => simp [handleGame07] at h
  | cons m1 rest1 =>
    rcases e1 : getKey m1 "type" with _ | t1
    · simp [handleGame07, e1] at h
    · rcases e2 : jsonEqStr t1 MSG_COMMIT
      · simp [handleGame07, e1, e2] at h
      · rcases e3 : (getField m1 "commitment").bind asStr with _ | cc
        · simp [handleGame07, e1, e2, e3] at h
        · rcases e3b : (getField m1 "num_dice").bind asInt with _ | nd
          · simp [handleGame07, e1, e2, e3, e3b] at h
          · cases rest1 with
            | nil => simp [handleGame07, e1, e2, e3, e3b] at h
            | cons m2 rest =>
              rcases e4 : getKey m2 "type" with _ | t2
              · simp [handleGame07, e1, e2, e3, e3b, e4] at h
              · rcases e5 : jsonEqStr t2 MSG_REVEAL
                · simp [handleGame07, e1, e2, e3, e3b, e4, e5] at h
                · rcases e6 : getField m2 "alice_sum" with _ | s
                  · simp [handleGame07, e1, e2, e3, e3b, e4, e5, e6] at h
                  · rcases e7 : (getField m2 "alice_dice").bind asDice
                      with _ | d
                    · simp [handleGame07, e1, e2, e3, e3b, e4, e5, e6,
                        e7] at h
                    · rcases e8 : getStrField m2 "nonce" with _ | nn
                      · simp [handleGame07, e1, e2, e3, e3b, e4, e5,
                          e6, e7, e8] at h
                      · rcases e9 : jsonNumEq s
                          (DiceLogic.calculate_sum d)
                        · simp [handleGame07, e1, e2, e3, e3b, e4, e5,
                            e6, e7, e8, e9] at h
                        · rcases e10 : CommitmentScheme.verify cc
                            (pyStrNum s) nn <;>
                            · simp [handleGame07, e1, e2, e3, e3b, e4,
                                e5, e6, e7, e8, e9, e10] at h
                              obtain ⟨-, hv, -⟩ := h
                              subst hv
                              exact ⟨m1, m2, rest, s, d, rfl, e6, e7,
                                e9, rfl⟩

/-- C4 counterexample: in the dice variant a reveal whose dice lie
outside the domain of six-sided dice — `[7,7,7]` — but whose sum is
consistent is not rejected: it passes the sum check, reaches commitment
verification and winner determination, and the round completes with no
ERROR. -/
theorem domain_check_cex :
    (getField cexRevealMsg "alice_dice").bind asDice =
      some [7, 7, 7] ∧
    (∃ d ∈ ([7, 7, 7] : List Int), ¬(1 ≤ d ∧ d ≤ 6)) ∧
    handleGame07 [cexCommitMsg, cexRevealMsg] (fun _ => [1, 1, 1]) =
      ([Act.recvAct cexCommitMsg, Act.sendAct MSG_RESULT,
        Act.recvAct cexRevealMsg,
        Act.verifyAct (CommitmentScheme.commit "21" "00") "21" "00",
        Act.winnerAct, Act.sendAct MSG_MATCH_RESULT],
       some (21, 3, 1)) :=
  ⟨rfl, by decide, rfl⟩

/-- C4 (amended): when the Responder processes a REVEAL, the value checks
run before cryptographic verification and a failing value is rejected
with an ERROR and no outcome, the value never reaching verification or
winner determination — but the checked property is the declared domain
only in the discrete variant (move ∈ rock/paper/scissors); in the dice
variant only consistency of the revealed sum with the revealed dice list
is checked, and dice outside 1..6 or a count different from the declared
one are not rejected. -/
theorem validity_before_verification (incoming : List Json)
    (bob_move : String) (roll : Int → List Int) :
    (∀ m1 m2 rest mv, incoming = m1 :: m2 :: rest →
      getStrField m2 "move" = some mv →
      GameLogic.is_valid_move mv = false →
      (handleGame06 incoming bob_move =
        ([Act.recvAct m1, Act.sendAct MSG_MOVE, Act.recvAct m2,
          Act.sendAct MSG_ERROR], none) ∨
       handleGame06 incoming bob_move =
        ([Act.recvAct m1, Act.sendAct MSG_ERROR], none))) ∧
    (∀ c v n, Act.verifyAct c v n ∈ (handleGame06 incoming bob_move).1 →
      GameLogic.is_valid_move v = true) ∧
    (∀ m1 m2 rest s d, incoming = m1 :: m2 :: rest →
      getField m2 "alice_sum" = some s →
      (getField m2 "alice_dice").bind asDice = some d →
      jsonNumEq s (DiceLogic.calculate_sum d) = false →
      (handleGame07 incoming roll =
        ([Act.recvAct m1, Act.sendAct MSG_RESULT, Act.recvAct m2,
          Act.sendAct MSG_ERROR], none) ∨
       handleGame07 incoming roll =
        ([Act.recvAct m1, Act.sendAct MSG_ERROR], none))) ∧
    (∀ c v n, Act.verifyAct c v n ∈ (handleGame07 incoming roll).1 →
      ∃ m1 m2 rest s d, incoming = m1 :: m2 :: rest ∧
        getField m2 "alice_sum" = some s ∧
        (getField m2 "alice_dice").bind asDice = some d ∧
        jsonNumEq s (DiceLogic.calculate_sum d) = true ∧
        v = pyStrNum s) :=
  ⟨fun m1 m2 rest mv hin hmv hbad => hin ▸
     handleGame06_invalid_move m1 m2 rest bob_move mv hmv hbad,
   fun c v n h => handleGame06_verify_valid incoming bob_move c v n h,
   fun m1 m2 rest s d hin hs hd hbad => hin ▸
     handleGame07_bad_sum m1 m2 rest roll s d hs hd hbad,
   fun c v n h => handleGame07_verify_consistent incoming roll c v n h⟩

/-- Witness for C4 (amended) at concrete inputs: the out-of-domain move
"lizard" is rejected before verification, the verified value "rock" of
the honest round is domain-valid, and the inconsistent sum 10 over dice
[1,2] is rejected before verification. -/
theorem validity_before_verification_witness :
    (handleGame06 [wCommitMsg06, wBadMoveMsg06] "rock" =
      ([Act.recvAct wCommitMsg06, Act.sendAct MSG_MOVE,
        Act.recvAct wBadMoveMsg06, Act.sendAct MSG_ERROR], none) ∨
     handleGame06 [wCommitMsg06, wBadMoveMsg06] "rock" =
      ([Act.recvAct wCommitMsg06, Act.sendAct MSG_ERROR], none)) ∧
    GameLogic.is_valid_move "rock" = true ∧
    (handleGame07 [cexCommitMsg, wBadSumMsg07] (fun _ => [1]) =
      ([Act.recvAct cexCommitMsg, Act.sendAct MSG_RESULT,
        Act.recvAct wBadSumMsg07, Act.sendAct MSG_ERROR], none) ∨
     handleGame07 [cexCommitMsg, wBadSumMsg07] (fun _ => [1]) =
      ([Act.recvAct cexCommitMsg, Act.sendAct MSG_ERROR], none)) :=
  ⟨(validity_before_verification [wCommitMsg06, wBadMoveMsg06] "rock"
      (fun _ => [1])).1 wCommitMsg06 wBadMoveMsg06 [] "lizard" rfl rfl
      (by decide),
   (validity_before_verification [wCommitMsg06, wRevealMsg06] "rock"
      (fun _ => [1])).2.1 (CommitmentScheme.commit "rock" "n1") "rock"
      "n1"
      (by
        have htr : (handleGame06 [wCommitMsg06, wRevealMsg06]
            "rock").1 =
            [Act.recvAct wCommitMsg06, Act.sendAct MSG_MOVE,
             Act.recvAct wRevealMsg06,
             Act.verifyAct (CommitmentScheme.commit "rock" "n1") "rock"
               "n1", Act.winnerAct, Act.sendAct MSG_RESULT] := rfl
        rw [htr]
        simp),
   (validity_before_verification [cexCommitMsg, wBadSumMsg07] "rock"
      (fun _ => [1])).2.2.1 cexCommitMsg wBadSumMsg07 [] (.num 10)
      [1, 2] rfl rfl rfl (by decide)⟩

/-! ## Round-trip of the JSON printer and parser (infrastructure for
C6/C7). -/

theorem toNat_ofNat_valid (n : Nat) (h : Nat.isValidChar n) :
    (Char.ofNat n).toNat = n := by
  unfold Char.ofNat
  rw [dif_pos h]
  show (UInt32.ofNat' n _).toNat = n
  have hn : n < 1114112 := by rcases h with h | h <;> omega
  simp [UInt32.ofNat', UInt32.toNat]

theorem char_valid_ranges (c : Char) :
    c.toNat < 55296 ∨ (57343 < c.toNat ∧ c.toNat < 1114112) := by
  have h := c.valid
  rcases h with h | h
  · left; exact h
  · right; exact h

theorem toNat_digitCh (m : Nat) (h : m < 10) :
    (digitCh m).toNat = 48 + m :=
  toNat_ofNat_valid _ (Or.inl (by omega))

theorem isDigitCh_digitCh (m : Nat) (h : m < 10) :
    isDigitCh (digitCh m) = true := by
  simp only [isDigitCh, toNat_digitCh m h, Bool.and_eq_true,
    decide_eq_true_eq]
  omega

theorem hexVal_hexDigit (m : Nat) (h : m < 16) :
    hexVal (hexDigit m) = some m := by
  by_cases hm : m < 10
  · have ht : (hexDigit m).toNat = 48 + m := by
      unfold hexDigit
      rw [if_pos hm]
      exact toNat_ofNat_valid _ (Or.inl (by omega))
    rw [hexVal, ht, if_pos (by omega)]
    congr 1
    omega
  · have ht : (hexDigit m).toNat = 87 + m := by
      unfold hexDigit
      rw [if_neg hm]
      exact toNat_ofNat_valid _ (Or.inl (by omega))
    rw [hexVal, ht, if_neg (by omega), if_pos (by omega)]
    congr 1
    omega

theorem parseStringBody_u (fuel : Nat) (acc rest : List Char) :
    parseStringBody (fuel + 1) acc ('\\' :: 'u' :: rest) =
      match decodeUSeq rest with
      | some (ch, r) => parseStringBody fuel (ch :: acc) r
      | none => none := rfl

theorem hex4Val_hex4 (n : Nat) (h : n < 65536) :
    hex4Val (hexDigit ((n >>> 12) % 16)) (hexDigit ((n >>> 8) % 16))
      (hexDigit ((n >>> 4) % 16)) (hexDigit (n % 16)) = some n := by
  rw [hex4Val, hexVal_hexDigit _ (Nat.mod_lt _ (by omega)),
    hexVal_hexDigit _ (Nat.mod_lt _ (by omega)),
    hexVal_hexDigit _ (Nat.mod_lt _ (by omega)),
    hexVal_hexDigit _ (Nat.mod_lt _ (by omega))]
  simp [Nat.shiftRight_eq_div_pow]
  omega

theorem decodeUSeq_hex4V (n : Nat) (t : List Char) (hlt : n < 65536) :
    decodeUSeq (hex4 n ++ t) = decodeUVal n t := by
  simp only [hex4, List.cons_append, List.nil_append, decodeUSeq,
    hex4Val_hex4 n hlt]

theorem decodeUSeq_hex4 (n : Nat) (t : List Char)
    (hn : n < 55296 ∨ 57343 < n) (hlt : n < 65536) :
    decodeUSeq (hex4 n ++ t) = some (Char.ofNat n, t) := by
  rw [decodeUSeq_hex4V n t hlt, decodeUVal, if_pos hn]

theorem decodeULow_hex4 (k m : Nat) (t : List Char) (hm : m < 65536)
    (hs : 56320 ≤ m ∧ m ≤ 57343) :
    decodeULow k ('\\' :: 'u' :: (hex4 m ++ t)) =
      some (combineSurrogate k m, t) := by
  simp only [hex4, List.cons_append, List.nil_append, decodeULow,
    hex4Val_hex4 m hm]
  rw [if_pos ⟨trivial, trivial⟩, if_pos hs]

theorem decodeUSeq_surrogate (n : Nat) (t : List Char)
    (h1 : 65536 ≤ n) (h2 : n < 1114112) :
    decodeUSeq (hex4 (55296 + (n - 65536) / 1024) ++ '\\' :: 'u' ::
      (hex4 (56320 + (n - 65536) % 1024) ++ t)) =
      some (Char.ofNat n, t) := by
  have hhi : 55296 + (n - 65536) / 1024 < 65536 := by omega
  have hlo : 56320 + (n - 65536) % 1024 < 65536 := by omega
  rw [decodeUSeq_hex4V _ _ hhi]
  rw [decodeUVal]
  rw [if_neg (by omega)]
  rw [if_pos (by omega)]
  rw [decodeULow_hex4 _ _ t hlo (by constructor <;> omega)]
  have harith : 65536 + (55296 + (n - 65536) / 1024 - 55296) * 1024 +
      (56320 + (n - 65536) % 1024 - 56320) = n := by omega
  rw [combineSurrogate, harith]

theorem parseStringBody_escapeChar (c : Char) (fuel : Nat)
    (acc t : List Char) :
    parseStringBody (fuel + 1) acc (escapeChar c ++ t) =
      parseStringBody fuel (c :: acc) t := by
  by_cases h1 : c = '"'
  · subst h1; rfl
  by_cases h2 : c = '\\'
  · subst h2; rfl
  by_cases h3 : c.toNat = 8
  · have he : escapeChar c = ['\\', 'b'] := by
      simp [escapeChar, h1, h2, h3]
    have hc : Char.ofNat 8 = c := by rw [← h3, Char.ofNat_toNat]
    rw [he, ← hc]; rfl
  by_cases h4 : c.toNat = 9
  · have he : escapeChar c = ['\\', 't'] := by
      simp [escapeChar, h1, h2, h3, h4]
    have hc : Char.ofNat 9 = c := by rw [← h4, Char.ofNat_toNat]
    rw [he, ← hc]; rfl
  by_cases h5 : c.toNat = 10
  · have he : escapeChar c = ['\\', 'n'] := by
      simp [escapeChar, h1, h2, h3, h4, h5]
    have hc : Char.ofNat 10 = c := by rw [← h5, Char.ofNat_toNat]
    rw [he, ← hc]; rfl
  by_cases h6 : c.toNat = 12
  · have he : escapeChar c = ['\\', 'f'] := by
      simp [escapeChar, h1, h2, h3, h4, h5, h6]
    have hc : Char.ofNat 12 = c := by rw [← h6, Char.ofNat_toNat]
    rw [he, ← hc]; rfl
  by_cases h7 : c.toNat = 13
  · have he : escapeChar c = ['\\', 'r'] := by
      simp [escapeChar, h1, h2, h3, h4, h5, h6, h7]
    have hc : Char.ofNat 13 = c := by rw [← h7, Char.ofNat_toNat]
    rw [he, ← hc]; rfl
  by_cases h8 : c.toNat < 32
  · have he : escapeChar c = '\\' :: 'u' :: hex4 c.toNat := by
      simp [escapeChar, h1, h2, h3, h4, h5, h6, h7, h8]
    rw [he]
    simp only [List.cons_append]
    rw [parseStringBody_u,
      decodeUSeq_hex4 c.toNat t (Or.inl (by omega)) (by omega)]
    simp only [Char.ofNat_toNat]
  by_cases h9 : c.toNat < 127
  · have he : escapeChar c = [c] := by
      simp [escapeChar, h1, h2, h3, h4, h5, h6, h7, h8, h9]
    rw [he]
    simp [parseStringBody, h1, h2, h8]
  by_cases h10 : c.toNat < 65536
  · have he : escapeChar c = '\\' :: 'u' :: hex4 c.toNat := by
      simp [escapeChar, h1, h2, h3, h4, h5, h6, h7, h8, h9, h10]
    have hcond : c.toNat < 55296 ∨ 57343 < c.toNat :=
      char_valid_ranges c |>.imp id And.left
    rw [he]
    simp only [List.cons_append]
    rw [parseStringBody_u, decodeUSeq_hex4 c.toNat t hcond (by omega)]
    simp only [Char.ofNat_toNat]
  · have he : escapeChar c =
        ('\\' :: 'u' :: hex4 (55296 + (c.toNat - 65536) / 1024)) ++
        ('\\' :: 'u' :: hex4 (56320 + (c.toNat - 65536) % 1024)) := by
      simp [escapeChar, h1, h2, h3, h4, h5, h6, h7, h8, h9, h10]
    have hub : c.toNat < 1114112 := by
      rcases char_valid_ranges c with h | h
      · omega
      · exact h.2
    rw [he]
    simp only [List.cons_append, List.append_assoc]
    rw [parseStringBody_u,
      decodeUSeq_surrogate c.toNat t (by omega) hub]
    simp only [Char.ofNat_toNat]

theorem parseStringBody_flatMap (cs : List Char) : ∀ fuel acc t,
    cs.length < fuel →
    parseStringBody fuel acc (cs.flatMap escapeChar ++ '"' :: t) =
      some (String.mk (acc.reverse ++ cs), t) := by
  induction cs with
  | nil =>
      intro fuel acc t h
      cases fuel with
      | zero => omega
      | succ f => simp [parseStringBody]
  | cons c cs ih =>
      intro fuel acc t h
      cases fuel with
      | zero => omega
      | succ f =>
          simp only [List.flatMap_cons, List.append_assoc]
          rw [parseStringBody_escapeChar]
          rw [ih f (c :: acc) t (by simpa using Nat.lt_of_succ_lt_succ h)]
          simp

theorem string_mk_data (s : String) : String.mk s.data = s := rfl

theorem allDigits_append (a b : List Char) :
    allDigits (a ++ b) = (allDigits a && allDigits b) := by
  induction a with
  | nil => simp [allDigits]
  | cons c t ih => simp [allDigits, ih, Bool.and_assoc]

theorem natCharsAux_spec (fuel : Nat) : ∀ n, n < fuel →
    allDigits (natCharsAux fuel n) = true ∧ natCharsAux fuel n ≠ [] := by
  induction fuel with
  | zero => intro n h; omega
  | succ f ih =>
      intro n h
      by_cases h10 : n < 10
      · simp [natCharsAux, h10, allDigits, isDigitCh_digitCh n h10]
      · have hrec := ih (n / 10) (by omega)
        simp [natCharsAux, h10, allDigits_append, hrec.1, allDigits,
          isDigitCh_digitCh (n % 10) (Nat.mod_lt _ (by omega))]

theorem parseDigitsAcc_append (ds : List Char) : ∀ rest acc,
    allDigits ds = true → headNotDigit rest = true →
    parseDigitsAcc acc (ds ++ rest) =
      (ds.foldl (fun a c => a * 10 + (c.toNat - 48)) acc, rest) := by
  induction ds with
  | nil =>
      intro rest acc _ hrest
      cases rest with
      | nil => rfl
      | cons c t =>
          simp only [headNotDigit, Bool.not_eq_true'] at hrest
          simp [parseDigitsAcc, hrest]
  | cons d ds ih =>
      intro rest acc hall hrest
      simp only [allDigits, Bool.and_eq_true] at hall
      simp [parseDigitsAcc, hall.1, ih rest _ hall.2 hrest]

theorem natCharsAux_foldl (fuel : Nat) : ∀ n acc, n < fuel →
    (natCharsAux fuel n).foldl (fun a c => a * 10 + (c.toNat - 48))
      acc = acc * 10 ^ (natCharsAux fuel n).length + n := by
  induction fuel with
  | zero => intro n acc h; omega
  | succ f ih =>
      intro n acc h
      by_cases h10 : n < 10
      · simp [natCharsAux, h10, toNat_digitCh n h10]
      · have hf : n / 10 < f := by omega
        have hstep : natCharsAux (f + 1) n =
            natCharsAux f (n / 10) ++ [digitCh (n % 10)] := by
          simp [natCharsAux, h10]
        rw [hstep, List.foldl_append, List.length_append,
          ih (n / 10) acc hf]
        simp only [List.foldl_cons, List.foldl_nil, List.length_cons,
          List.length_nil]
        rw [toNat_digitCh (n % 10) (by omega)]
        have h48 : 48 + n % 10 - 48 = n % 10 := by omega
        rw [h48, pow_succ]
        have hdm : n / 10 * 10 + n % 10 = n := by omega
        generalize 10 ^ (natCharsAux f (n / 10)).length = P
        calc (acc * P + n / 10) * 10 + n % 10
            = acc * (P * 10) + (n / 10 * 10 + n % 10) := by ring
          _ = acc * (P * 10) + n := by rw [hdm]

theorem parseDigits_natChars (n : Nat) (rest : List Char)
    (hrest : headNotDigit rest = true) :
    parseDigits (natChars n ++ rest) = some (n, rest) := by
  have hs : allDigits (natChars n) = true ∧ natChars n ≠ [] :=
    natCharsAux_spec (n + 1) n (by omega)
  have hf : (natChars n).foldl (fun a c => a * 10 + (c.toNat - 48)) 0 =
      n := by
    have h := natCharsAux_foldl (n + 1) n 0 (by omega)
    simpa [natChars] using h
  rcases hd : natChars n with _ | ⟨d, ds⟩
  · exact absurd hd hs.2
  · have hall : allDigits (d :: ds) = true := hd ▸ hs.1
    simp only [allDigits, Bool.and_eq_true] at hall
    rw [hd] at hf
    simp only [List.foldl_cons, Nat.zero_mul, Nat.zero_add] at hf
    simp only [List.cons_append, parseDigits, hall.1, if_pos]
    rw [parseDigitsAcc_append ds rest _ hall.2 hrest]
    rw [hf]

theorem skipWs_cons_of (c : Char) (cs : List Char)
    (h : ¬(c = ' ' ∨ c = '\t' ∨ c = '\n' ∨ c.toNat = 13)) :
    skipWs (c :: cs) = c :: cs := by
  simp only [skipWs, if_neg h]

theorem parseValue_ws (fuel : Nat) (cs : List Char) :
    parseValue fuel (' ' :: cs) = parseValue fuel cs := by
  cases fuel with
  | zero => rfl
  | succ f =>
      have h : skipWs (' ' :: cs) = skipWs cs := by simp [skipWs]
      simp only [parseValue, h]

theorem parseElems_ws (fuel : Nat) (cs : List Char) :
    parseElems fuel (' ' :: cs) = parseElems fuel cs := by
  cases fuel with
  | zero => rfl
  | succ f => simp only [parseElems, parseValue_ws]

theorem parseMembers_ws (fuel : Nat) (cs : List Char) :
    parseMembers fuel (' ' :: cs) = parseMembers fuel cs := by
  cases fuel with
  | zero => rfl
  | succ f =>
      have h : skipWs (' ' :: cs) = skipWs cs := by simp [skipWs]
      simp only [parseMembers, h]

/-- The head facts about a decimal digit character needed to route it
through the parser's dispatch. -/
theorem isDigit_head_facts (d : Char) (hd : isDigitCh d = true) :
    d ≠ ' ' ∧ d ≠ '\t' ∧ d ≠ '\n' ∧ d.toNat ≠ 13 ∧ d ≠ '"' ∧
    d ≠ lbrace ∧ d ≠ '[' ∧ d ≠ '-' ∧ d ≠ ']' ∧ d ≠ rbrace ∧
    d ≠ ',' := by
  simp only [isDigitCh, Bool.and_eq_true, decide_eq_true_eq] at hd
  refine ⟨?_, ?_, ?_, by omega, ?_, ?_, ?_, ?_, ?_, ?_, ?_⟩ <;>
    (intro h; subst h; revert hd; decide)

/-- Every printed JSON value starts with a character that is neither
whitespace nor a closing delimiter nor a separator. -/
theorem dumpsV_head (j : Json) : ∃ c t', dumpsV j = c :: t' ∧
    c ≠ ' ' ∧ c ≠ '\t' ∧ c ≠ '\n' ∧ c.toNat ≠ 13 ∧ c ≠ ']' ∧
    c ≠ rbrace ∧ c ≠ ',' := by
  cases j with
  | null => exact ⟨'n', _, rfl, by decide, by decide, by decide,
      by decide, by decide, by decide, by decide⟩
  | bool b =>
      cases b with
      | true => exact ⟨'t', _, rfl, by decide, by decide, by decide,
          by decide, by decide, by decide, by decide⟩
      | false => exact ⟨'f', _, rfl, by decide, by decide, by decide,
          by decide, by decide, by decide, by decide⟩
  | num i =>
      by_cases hneg : i < 0
      · refine ⟨'-', natChars (-i).toNat, ?_, by decide, by decide,
          by decide, by decide, by decide, by decide, by decide⟩
        simp [dumpsV, intChars, hneg]
      · have hs := natCharsAux_spec (i.toNat + 1) i.toNat (by omega)
        rcases hh : natChars i.toNat with _ | ⟨d, ds⟩
        · exact absurd hh hs.2
        · have hall : allDigits (d :: ds) = true := hh ▸ hs.1
          simp only [allDigits, Bool.and_eq_true] at hall
          have hf := isDigit_head_facts d hall.1
          refine ⟨d, ds, ?_, hf.1, hf.2.1, hf.2.2.1, hf.2.2.2.1,
            hf.2.2.2.2.2.2.2.2.1, hf.2.2.2.2.2.2.2.2.2.1,
            hf.2.2.2.2.2.2.2.2.2.2⟩
          simp [dumpsV, intChars, hneg, hh]
  | str s => exact ⟨'"', _, rfl, by decide, by decide, by decide,
      by decide, by decide, by decide, by decide⟩
  | arr xs => exact ⟨'[', _, rfl, by decide, by decide, by decide,
      by decide, by decide, by decide, by decide⟩
  | obj kvs => exact ⟨lbrace, _, rfl, by decide, by decide, by decide,
      by decide, by decide, by decide, by decide⟩

theorem skipWs_dumpsV (j : Json) (t : List Char) :
    skipWs (dumpsV j ++ t) = dumpsV j ++ t := by
  obtain ⟨c, t', hj, hc1, hc2, hc3, hc4, -, -, -⟩ := dumpsV_head j
  rw [hj]
  simp only [List.cons_append]
  refine skipWs_cons_of c _ ?_
  rintro (h | h | h | h)
  exacts [hc1 h, hc2 h, hc3 h, hc4 h]

theorem parseValue_quote (f : Nat) (x : List Char) :
    parseValue (f + 1) ('"' :: x) =
      match parseStringBody (x.length + 1) [] x with
      | some (s, r) => some (.str s, r)
      | none => none := rfl

theorem parseValue_minus (f : Nat) (y : List Char) :
    parseValue (f + 1) ('-' :: y) =
      match parseDigits y with
      | some (n, r) => some (.num (-(n : Int)), r)
      | none => none := rfl

theorem parseValue_lbrack (f : Nat) (y : List Char) :
    parseValue (f + 1) ('[' :: y) =
      (match skipWs y with
       | c2 :: rest2 =>
           if c2 = ']' then some (.arr .nil, rest2)
           else
             match parseElems f (c2 :: rest2) with
             | some (xs, r) => some (.arr xs, r)
             | none => none
       | [] => none) := rfl

theorem parseValue_lbrace (f : Nat) (y : List Char) :
    parseValue (f + 1) (lbrace :: y) =
      (match skipWs y with
       | c2 :: rest2 =>
           if c2 = rbrace then some (.obj .nil, rest2)
           else
             match parseMembers f (c2 :: rest2) with
             | some (kvs, r) => some (.obj kvs, r)
             | none => none
       | [] => none) := rfl

theorem parseValue_digit (f : Nat) (d : Char) (y : List Char)
    (hd : isDigitCh d = true) :
    parseValue (f + 1) (d :: y) =
      match parseDigits (d :: y) with
      | some (n, r) => some (.num (n : Int), r)
      | none => none := by
  obtain ⟨w1, w2, w3, w4, hq, hbr, hbk, hm, -, -, -⟩ :=
    isDigit_head_facts d hd
  have hws : skipWs (d :: y) = d :: y := by
    refine skipWs_cons_of d y ?_
    rintro (h | h | h | h)
    exacts [w1 h, w2 h, w3 h, w4 h]
  simp only [parseValue, hws]
  rw [if_neg hq, if_neg hbr, if_neg hbk, if_neg hm, if_pos hd]

theorem parseValue_lbrack_cons (f : Nat) (y r : List Char) (c : Char)
    (hws : skipWs y = c :: r) (hc : ¬(c = ']')) :
    parseValue (f + 1) ('[' :: y) =
      match parseElems f (c :: r) with
      | some (xs, r') => some (.arr xs, r')
      | none => none := by
  rw [parseValue_lbrack, hws]
  show (if c = ']' then some (Json.arr JsonList.nil, r)
    else
      match parseElems f (c :: r) with
      | some (xs, r') => some (Json.arr xs, r')
      | none => none) = _
  rw [if_neg hc]

theorem parseValue_lbrace_cons (f : Nat) (y r : List Char) (c : Char)
    (hws : skipWs y = c :: r) (hc : ¬(c = rbrace)) :
    parseValue (f + 1) (lbrace :: y) =
      match parseMembers f (c :: r) with
      | some (kvs, r') => some (.obj kvs, r')
      | none => none := by
  rw [parseValue_lbrace, hws]
  show (if c = rbrace then some (Json.obj JsonMembers.nil, r)
    else
      match parseMembers f (c :: r) with
      | some (kvs, r') => some (Json.obj kvs, r')
      | none => none) = _
  rw [if_neg hc]

theorem parseElems_step_end (f : Nat) (cs rest : List Char) (x : Json)
    (hv : parseValue f cs = some (x, ']' :: rest)) :
    parseElems (f + 1) cs = some (.cons x .nil, rest) := by
  simp only [parseElems]
  rw [hv]
  rfl

theorem parseElems_step_comma (f : Nat) (cs x2 : List Char) (x : Json)
    (hv : parseValue f cs = some (x, ',' :: ' ' :: x2)) :
    parseElems (f + 1) cs =
      match parseElems f (' ' :: x2) with
      | some (xs, r3) => some (JsonList.cons x xs, r3)
      | none => none := by
  simp only [parseElems]
  rw [hv]
  rfl

theorem parseMembers_quote (f : Nat) (r0 : List Char) :
    parseMembers (f + 1) ('"' :: r0) =
      (match parseStringBody (r0.length + 1) [] r0 with
       | some (k, r) =>
           (match skipWs r with
            | c2 :: r2 =>
                if c2 = ':' then
                  (match parseValue f r2 with
                   | some (v, r3) =>
                       (match skipWs r3 with
                        | c3 :: r4 =>
                            if c3 = ',' then
                              (match parseMembers f r4 with
                               | some (ms, r5) =>
                                   some (JsonMembers.cons k v ms, r5)
                               | none => none)
                            else if c3 = rbrace then
                              some (JsonMembers.cons k v .nil, r4)
                            else none
                        | [] => none)
                   | none => none)
                else none
            | [] => none)
       | none => none) := rfl

theorem escapeChar_length_pos (c : Char) :
    1 ≤ (escapeChar c).length := by
  unfold escapeChar
  repeat' split
  all_goals simp [hex4]

theorem length_le_flatMap_escape (cs : List Char) :
    cs.length ≤ (cs.flatMap escapeChar).length := by
  induction cs with
  | nil => simp
  | cons c t ih =>
      simp only [List.flatMap_cons, List.length_append,
        List.length_cons]
      have := escapeChar_length_pos c
      omega

theorem parseStringBody_flatMap0 (s : String) (fuel : Nat)
    (t : List Char) (h : s.data.length < fuel) :
    parseStringBody fuel [] (s.data.flatMap escapeChar ++ '"' :: t) =
      some (s, t) := by
  rw [parseStringBody_flatMap s.data fuel [] t h]
  simp [string_mk_data]

theorem parseMembers_key (f : Nat) (r0 y : List Char) (k : String)
    (hk : parseStringBody (r0.length + 1) [] r0 =
      some (k, ':' :: ' ' :: y)) :
    parseMembers (f + 1) ('"' :: r0) =
      (match parseValue f (' ' :: y) with
       | some (v, r3) =>
           (match skipWs r3 with
            | c3 :: r4 =>
                if c3 = ',' then
                  (match parseMembers f r4 with
                   | some (ms, r5) => some (JsonMembers.cons k v ms, r5)
                   | none => none)
                else if c3 = rbrace then
                  some (JsonMembers.cons k v .nil, r4)
                else none
            | [] => none)
       | none => none) := by
  rw [parseMembers_quote, hk]
  rfl

theorem parseMembers_key_end (f : Nat) (r0 y z : List Char)
    (k : String) (v : Json)
    (hk : parseStringBody (r0.length + 1) [] r0 =
      some (k, ':' :: ' ' :: y))
    (hv : parseValue f (' ' :: y) = some (v, rbrace :: z)) :
    parseMembers (f + 1) ('"' :: r0) =
      some (JsonMembers.cons k v .nil, z) := by
  rw [parseMembers_key f r0 y k hk, hv]
  rfl

theorem parseMembers_key_comma (f : Nat) (r0 y z : List Char)
    (k : String) (v : Json)
    (hk : parseStringBody (r0.length + 1) [] r0 =
      some (k, ':' :: ' ' :: y))
    (hv : parseValue f (' ' :: y) = some (v, ',' :: ' ' :: z)) :
    parseMembers (f + 1) ('"' :: r0) =
      (match parseMembers f (' ' :: z) with
       | some (ms, r5) => some (JsonMembers.cons k v ms, r5)
       | none => none) := by
  rw [parseMembers_key f r0 y k hk, hv]
  rfl

theorem dumpsElems_cons_eq (x : Json) (xs : JsonList) :
    ∃ sfx, dumpsElems (.cons x xs) = dumpsV x ++ sfx := by
  cases xs with
  | nil => exact ⟨[], by simp [dumpsElems]⟩
  | cons y ys => exact ⟨_, rfl⟩

theorem dumpsMembers_cons_eq (k : String) (v : Json)
    (ms : JsonMembers) :
    ∃ sfx, dumpsMembers (.cons k v ms) =
      '"' :: (k.data.flatMap escapeChar ++ '"' :: sfx) := by
  cases ms with
  | nil =>
      refine ⟨':' :: ' ' :: dumpsV v, ?_⟩
      simp [dumpsMembers, strChars]
  | cons k2 v2 ms2 =>
      refine ⟨':' :: ' ' :: (dumpsV v ++ ',' :: ' ' ::
        dumpsMembers (.cons k2 v2 ms2)), ?_⟩
      simp [dumpsMembers, strChars]

theorem natChars_ne_nil (n : Nat) : natChars n ≠ [] :=
  (natCharsAux_spec (n + 1) n (by omega)).2

mutual
theorem nodesV_le_length (j : Json) : nodesV j ≤ (dumpsV j).length := by
  cases j with
  | null => simp [nodesV, dumpsV]
  | bool b => cases b <;> simp [nodesV, dumpsV]
  | num i =>
      show 1 ≤ (intChars i).length
      unfold intChars
      by_cases hneg : i < 0
      · simp [hneg]
      · rw [if_neg hneg]
        have h : natChars i.toNat ≠ [] := natChars_ne_nil i.toNat
        have := List.length_pos.mpr h
        omega
  | str s => simp [nodesV, dumpsV, strChars]
  | arr xs =>
      have h := nodesL_le_length xs
      simp only [nodesV, dumpsV, List.length_cons, List.length_append,
        List.length_singleton]
      omega
  | obj kvs =>
      have h := nodesM_le_length kvs
      simp only [nodesV, dumpsV, List.length_cons, List.length_append,
        List.length_singleton]
      omega
theorem nodesL_le_length (xs : JsonList) :
    nodesL xs ≤ (dumpsElems xs).length + 1 := by
  cases xs with
  | nil => simp [nodesL]
  | cons x xs' =>
      have hx := nodesV_le_length x
      cases xs' with
      | nil =>
          simp only [nodesL, dumpsElems]
          omega
      | cons y ys =>
          have hr := nodesL_le_length (JsonList.cons y ys)
          simp only [nodesL] at hr
          simp only [nodesL, dumpsElems, List.length_append,
            List.length_cons]
          omega
theorem nodesM_le_length (kvs : JsonMembers) :
    nodesM kvs ≤ (dumpsMembers kvs).length + 1 := by
  cases kvs with
  | nil => simp [nodesM]
  | cons k v ms =>
      have hv := nodesV_le_length v
      cases ms with
      | nil =>
          simp only [nodesM, dumpsMembers, List.length_append,
            List.length_cons]
          omega
      | cons k2 v2 ms2 =>
          have hr := nodesM_le_length (JsonMembers.cons k2 v2 ms2)
          simp only [nodesM] at hr
          simp only [nodesM, dumpsMembers, List.length_append,
            List.length_cons]
          omega
end

/-- The printer/parser round-trip at every sufficient fuel: a printed
value parses back to itself with exactly the trailing input left
over. -/
theorem parse_dumps (fuel : Nat) :
    (∀ (j : Json) (rest : List Char), nodesV j < fuel →
      headNotDigit rest = true →
      parseValue fuel (dumpsV j ++ rest) = some (j, rest)) ∧
    (∀ (xs : JsonList) (rest : List Char), nodesL xs < fuel →
      xs ≠ JsonList.nil →
      parseElems fuel (dumpsElems xs ++ ']' :: rest) = some (xs, rest)) ∧
    (∀ (kvs : JsonMembers) (rest : List Char), nodesM kvs < fuel →
      kvs ≠ JsonMembers.nil →
      parseMembers fuel (dumpsMembers kvs ++ rbrace :: rest) =
        some (kvs, rest)) := by
  induction fuel with
  | zero =>
      exact ⟨fun j rest h _ => absurd h (Nat.not_lt_zero _),
        fun xs rest h _ => absurd h (Nat.not_lt_zero _),
        fun kvs rest h _ => absurd h (Nat.not_lt_zero _)⟩
  | succ f ih =>
      obtain ⟨ihV, ihE, ihM⟩ := ih
      refine ⟨?_, ?_, ?_⟩
      · intro j rest hn hrest
        cases j with
        | null => rfl
        | bool b => cases b <;> rfl
        | num i =>
            by_cases hneg : i < 0
            · have hd : dumpsV (.num i) = '-' :: natChars (-i).toNat :=
                by simp [dumpsV, intChars, hneg]
              rw [hd]
              simp only [List.cons_append]
              rw [parseValue_minus,
                parseDigits_natChars _ rest hrest]
              have hi : (((-i).toNat : Int)) = -i :=
                Int.toNat_of_nonneg (by omega)
              simp [hi]
            · have hd0 : dumpsV (.num i) = natChars i.toNat := by
                simp [dumpsV, intChars, hneg]
              have hs := natCharsAux_spec (i.toNat + 1) i.toNat
                (by omega)
              rcases hh : natChars i.toNat with _ | ⟨d, ds⟩
              · exact absurd hh hs.2
              · have hall : allDigits (d :: ds) = true := hh ▸ hs.1
                simp only [allDigits, Bool.and_eq_true] at hall
                rw [hd0, hh]
                simp only [List.cons_append]
                rw [parseValue_digit f d (ds ++ rest) hall.1]
                rw [show d :: (ds ++ rest) = (d :: ds) ++ rest from rfl,
                  ← hh, parseDigits_natChars _ rest hrest]
                have hi : ((i.toNat : Int)) = i :=
                  Int.toNat_of_nonneg (by omega)
                simp [hi]
        | str s =>
            rw [show dumpsV (Json.str s) ++ rest =
              '"' :: (s.data.flatMap escapeChar ++ '"' :: rest) from by
                simp [dumpsV, strChars]]
            rw [parseValue_quote]
            have hlen : s.data.length <
                (s.data.flatMap escapeChar ++ '"' :: rest).length + 1 :=
              by
              have := length_le_flatMap_escape s.data
              simp only [List.length_append, List.length_cons]
              omega
            rw [parseStringBody_flatMap0 s _ rest hlen]
        | arr xs =>
            cases xs with
            | nil => rfl
            | cons x xs' =>
                rw [show dumpsV (Json.arr (JsonList.cons x xs')) ++
                  rest = '[' :: (dumpsElems (JsonList.cons x xs') ++
                    ']' :: rest) from by simp [dumpsV]]
                obtain ⟨sfx, hsfx⟩ := dumpsElems_cons_eq x xs'
                obtain ⟨c, t', hx, w1, w2, w3, w4, w5, w6, w7⟩ :=
                  dumpsV_head x
                have hshape : dumpsElems (JsonList.cons x xs') ++
                    ']' :: rest = c :: (t' ++ (sfx ++ ']' :: rest)) := by
                  rw [hsfx, hx]
                  simp
                have hws : skipWs (dumpsElems (JsonList.cons x xs') ++
                    ']' :: rest) = c :: (t' ++ (sfx ++ ']' :: rest)) :=
                  by
                  rw [hshape]
                  refine skipWs_cons_of c _ ?_
                  rintro (h | h | h | h)
                  exacts [w1 h, w2 h, w3 h, w4 h]
                rw [parseValue_lbrack_cons f _ _ c hws w5]
                rw [show c :: (t' ++ (sfx ++ ']' :: rest)) =
                  dumpsElems (JsonList.cons x xs') ++ ']' :: rest from
                  hshape.symm]
                rw [ihE (JsonList.cons x xs') rest
                  (by simp only [nodesV] at hn; omega)
                  (fun h => JsonList.noConfusion h)]
        | obj kvs =>
            cases kvs with
            | nil => rfl
            | cons k v ms =>
                rw [show dumpsV (Json.obj (JsonMembers.cons k v ms)) ++
                  rest = lbrace :: (dumpsMembers
                    (JsonMembers.cons k v ms) ++ rbrace :: rest) from by
                  simp [dumpsV]]
                obtain ⟨sfx, hsfx⟩ := dumpsMembers_cons_eq k v ms
                have hshape : dumpsMembers (JsonMembers.cons k v ms) ++
                    rbrace :: rest = '"' :: ((k.data.flatMap escapeChar
                      ++ '"' :: sfx) ++ rbrace :: rest) := by
                  rw [hsfx]
                  simp
                have hws : skipWs (dumpsMembers
                    (JsonMembers.cons k v ms) ++ rbrace :: rest) =
                    '"' :: ((k.data.flatMap escapeChar ++ '"' :: sfx) ++
                      rbrace :: rest) := by
                  rw [hshape]
                  exact skipWs_cons_of '"' _ (by decide)
                rw [parseValue_lbrace_cons f _ _ '"' hws (by decide)]
                rw [show ('"' : Char) :: ((k.data.flatMap escapeChar ++
                  '"' :: sfx) ++ rbrace :: rest) =
                  dumpsMembers (JsonMembers.cons k v ms) ++
                    rbrace :: rest from hshape.symm]
                rw [ihM (JsonMembers.cons k v ms) rest
                  (by simp only [nodesV] at hn; omega)
                  (fun h => JsonMembers.noConfusion h)]
      · intro xs rest hn hne
        cases xs with
        | nil => exact absurd rfl hne
        | cons x xs' =>
            have hx : nodesV x < f := by
              simp only [nodesL] at hn
              omega
            cases xs' with
            | nil =>
                have hvx := ihV x (']' :: rest) hx (by rfl)
                show parseElems (f + 1) (dumpsV x ++ ']' :: rest) = _
                exact parseElems_step_end f _ rest x hvx
            | cons y ys =>
                have hyy : nodesL (JsonList.cons y ys) < f := by
                  simp only [nodesL] at hn ⊢
                  omega
                have hvx := ihV x (',' :: ' ' ::
                  (dumpsElems (JsonList.cons y ys) ++ ']' :: rest)) hx
                  (by rfl)
                rw [show dumpsElems (JsonList.cons x
                  (JsonList.cons y ys)) ++ ']' :: rest = dumpsV x ++
                  (',' :: ' ' :: (dumpsElems (JsonList.cons y ys) ++
                    ']' :: rest)) from by simp [dumpsElems]]
                rw [parseElems_step_comma f _ _ x hvx]
                rw [parseElems_ws, ihE (JsonList.cons y ys) rest hyy
                  (fun h => JsonList.noConfusion h)]
      · intro kvs rest hn hne
        cases kvs with
        | nil => exact absurd rfl hne
        | cons k v ms =>
            have hv_lt : nodesV v < f := by
              simp only [nodesM] at hn
              omega
            cases ms with
            | nil =>
                rw [show dumpsMembers (JsonMembers.cons k v .nil) ++
                  rbrace :: rest = '"' :: (k.data.flatMap escapeChar ++
                    '"' :: (':' :: ' ' :: (dumpsV v ++
                      rbrace :: rest))) from by
                  simp [dumpsMembers, strChars]]
                have hlen : k.data.length < (k.data.flatMap escapeChar
                    ++ '"' :: (':' :: ' ' :: (dumpsV v ++
                      rbrace :: rest))).length + 1 := by
                  have := length_le_flatMap_escape k.data
                  simp only [List.length_append, List.length_cons]
                  omega
                have hk := parseStringBody_flatMap0 k _
                  (':' :: ' ' :: (dumpsV v ++ rbrace :: rest)) hlen
                have hv : parseValue f (' ' :: (dumpsV v ++
                    rbrace :: rest)) = some (v, rbrace :: rest) := by
                  rw [parseValue_ws]
                  exact ihV v (rbrace :: rest) hv_lt (by rfl)
                exact parseMembers_key_end f _ _ rest k v hk hv
            | cons k2 v2 ms2 =>
                have hms : nodesM (JsonMembers.cons k2 v2 ms2) < f := by
                  simp only [nodesM] at hn ⊢
                  omega
                rw [show dumpsMembers (JsonMembers.cons k v
                  (JsonMembers.cons k2 v2 ms2)) ++ rbrace :: rest =
                  '"' :: (k.data.flatMap escapeChar ++ '"' ::
                    (':' :: ' ' :: (dumpsV v ++ ',' :: ' ' ::
                      (dumpsMembers (JsonMembers.cons k2 v2 ms2) ++
                        rbrace :: rest)))) from by
                  simp [dumpsMembers, strChars]]
                have hlen : k.data.length < (k.data.flatMap escapeChar
                    ++ '"' :: (':' :: ' ' :: (dumpsV v ++ ',' :: ' ' ::
                      (dumpsMembers (JsonMembers.cons k2 v2 ms2) ++
                        rbrace :: rest)))).length + 1 := by
                  have := length_le_flatMap_escape k.data
                  simp only [List.length_append, List.length_cons]
                  omega
                have hk := parseStringBody_flatMap0 k _
                  (':' :: ' ' :: (dumpsV v ++ ',' :: ' ' ::
                    (dumpsMembers (JsonMembers.cons k2 v2 ms2) ++
                      rbrace :: rest))) hlen
                have hv : parseValue f (' ' :: (dumpsV v ++ ',' ::
                    ' ' :: (dumpsMembers (JsonMembers.cons k2 v2 ms2) ++
                      rbrace :: rest))) = some (v, ',' :: ' ' ::
                    (dumpsMembers (JsonMembers.cons k2 v2 ms2) ++
                      rbrace :: rest)) := by
                  rw [parseValue_ws]
                  exact ihV v _ hv_lt (by rfl)
                rw [parseMembers_key_comma f _ _ _ k v hk hv]
                rw [parseMembers_ws,
                  ihM (JsonMembers.cons k2 v2 ms2) rest hms
                    (fun h => JsonMembers.noConfusion h)]

/-- Parsing inverts printing: `loads` of `dumps` returns the value. -/
theorem loads_dumps (j : Json) : loads (dumps j) = some j := by
  unfold loads dumps
  have hdata : (String.mk (dumpsV j)).data = dumpsV j := rfl
  rw [hdata]
  have hfuel : nodesV j < (dumpsV j).length + 1 := by
    have := nodesV_le_length j
    omega
  have h := (parse_dumps ((dumpsV j).length + 1)).1 j [] hfuel (by rfl)
  rw [show dumpsV j ++ ([] : List Char) = dumpsV j from by simp] at h
  rw [h]
  rfl

/-- C6: for every message type and every payload of JSON-representable
named fields, parsing the encoding round-trips: `ProtocolMessage.parse`
of `ProtocolMessage.create` returns the envelope whose `type` field is
the given type and whose `data` field is exactly the given payload. -/
theorem protocol_roundtrip (msg_type : String) (payload : JsonMembers) :
    ProtocolMessage.parse (ProtocolMessage.create msg_type payload) =
      .ok (.obj (.cons "type" (.str msg_type)
        (.cons "data" (.obj payload) .nil))) := by
  unfold ProtocolMessage.create ProtocolMessage.parse
  rw [loads_dumps]
  rfl

/-- C7 counterexample: the failure cases are not exactly the three
stated ones.  A stream carrying the JSON string "type data" decodes to a
value with no 'type' field at all (it is not even an object), yet
`receive_message` returns it successfully; and a stream carrying the
JSON number 5 fails with `TypeError`, not the documented invalid-envelope
`ValueError`. -/
theorem receive_failure_cases_cex :
    receive_message ("\"type data\"\n".data) = .ok (.str "type data") ∧
    getKey (.str "type data") "type" = none ∧
    receive_message ("5\n".data) = .error .typeError :=
  ⟨rfl, rfl, rfl⟩

/-- Concrete probes of the full-grammar decoder against the Python
program: a float payload is accepted and the message returned, the
leading-zero line `05` is rejected by the number grammar and fails with
the parse ValueError, a string whose `\uXXXX` escape leaves a lone
surrogate is returned, and the top-level numbers `NaN` and `1.5` fail
the membership test with TypeError. -/
theorem receive_messagePy_checks :
    receive_messagePy ("\x7b\"type\": 0, \"data\": 1.5\x7d\n".data) =
      .ok (.obj (.cons (strCps "type") (.int 0)
        (.cons (strCps "data") (.float "1.5") .nil))) ∧
    receive_messagePy ("05\n".data) =
      .error (.valueError "Failed to parse message") ∧
    receive_messagePy ("\"type data \\ud800\"\n".data) =
      .ok (.str [116, 121, 112, 101, 32, 100, 97, 116, 97, 32, 55296]) ∧
    receive_messagePy ("NaN\n".data) = .error .typeError ∧
    receive_messagePy ("1.5\n".data) = .error .typeError :=
  ⟨rfl, rfl, rfl, rfl, rfl⟩

/-- The full-grammar `ProtocolMessage.parse` succeeds exactly on lines
that decode and whose decoded value passes both membership tests. -/
theorem parsePy_ok_iff (s : String) (j : PyVal) :
    ProtocolMessagePy.parse s = .ok j ↔
      loadsPy s = some j ∧ pyContainsPy j "type" = .ok true ∧
        pyContainsPy j "data" = .ok true := by
  rcases hl : loadsPy s with _ | j0
  · simp [ProtocolMessagePy.parse, hl]
  · rcases hpt : pyContainsPy j0 "type" with e | bt
    · constructor
      · intro h
        simp [ProtocolMessagePy.parse, hl, hpt] at h
      · rintro ⟨h1, h2, h3⟩
        obtain rfl : j0 = j := by simpa using h1
        rw [hpt] at h2
        exact absurd h2 (by simp)
    · cases bt with
      | false =>
          constructor
          · intro h
            simp [ProtocolMessagePy.parse, hl, hpt] at h
          · rintro ⟨h1, h2, h3⟩
            obtain rfl : j0 = j := by simpa using h1
            rw [hpt] at h2
            exact absurd h2 (by simp)
      | true =>
          rcases hpd : pyContainsPy j0 "data" with e | bd
          · constructor
            · intro h
              simp [ProtocolMessagePy.parse, hl, hpt, hpd] at h
            · rintro ⟨h1, h2, h3⟩
              obtain rfl : j0 = j := by simpa using h1
              rw [hpd] at h3
              exact absurd h3 (by simp)
          · cases bd with
            | false =>
                constructor
                · intro h
                  simp [ProtocolMessagePy.parse, hl, hpt, hpd] at h
                · rintro ⟨h1, h2, h3⟩
                  obtain rfl : j0 = j := by simpa using h1
                  rw [hpd] at h3
                  exact absurd h3 (by simp)
            | true =>
                constructor
                · intro h
                  obtain rfl : j0 = j := by
                    simpa [ProtocolMessagePy.parse, hl, hpt, hpd] using h
                  exact ⟨rfl, hpt, hpd⟩
                · rintro ⟨h1, h2, h3⟩
                  obtain rfl : j0 = j := by simpa using h1
                  simp [ProtocolMessagePy.parse, hl, hpt, hpd]

/-- The full-grammar `ProtocolMessage.parse` fails exactly on lines that
do not decode or whose decoded value fails a membership test. -/
theorem parsePy_fail_iff (s : String) :
    (∃ e, ProtocolMessagePy.parse s = .error e) ↔
      loadsPy s = none ∨
        ∃ j, loadsPy s = some j ∧
          ¬(pyContainsPy j "type" = .ok true ∧
            pyContainsPy j "data" = .ok true) := by
  rcases hl : loadsPy s with _ | j
  · simp [ProtocolMessagePy.parse, hl]
  · rcases hpt : pyContainsPy j "type" with e | bt
    · simp [ProtocolMessagePy.parse, hl, hpt]
    · cases bt with
      | false => simp [ProtocolMessagePy.parse, hl, hpt]
      | true =>
          rcases hpd : pyContainsPy j "data" with e | bd
          · simp [ProtocolMessagePy.parse, hl, hpt, hpd]
          · cases bd with
            | false => simp [ProtocolMessagePy.parse, hl, hpt, hpd]
            | true => simp [ProtocolMessagePy.parse, hl, hpt, hpd]

/-- On a stream with a newline, receiving parses the first line. -/
theorem receive_messagePy_line (stream line tail : List Char)
    (h : splitAtNewline stream = some (line, tail)) :
    receive_messagePy stream = ProtocolMessagePy.parse (String.mk line) := by
  simp [receive_messagePy, h]

/-- C7 (amended): for streams whose nesting stays below the
interpreter's recursion limit — scoped here as fewer than 100 opening
brackets, which the model's fuel always covers — `receive_message`
fails exactly when the stream ends before a newline (ConnectionError);
or the line is rejected by the default `json.loads` grammar, which
accepts integers without leading zeros, fractions and exponents,
`NaN`/`Infinity`/`-Infinity`, and strings whose `\uXXXX` escapes may
leave lone surrogates (the parse ValueError); or the Python membership
test for 'type'/'data' on the decoded value does not accept it — a
missing key on an object, a missing substring on a string or a missing
element on an array give the invalid-format ValueError, while on a
number (int or float), boolean or null the test itself raises
TypeError.  Otherwise the decoded value is returned — even a non-object
value that happens to pass both membership tests. -/
theorem receive_failure_modes (stream : List Char)
    (hscope : openBrackets stream < 100) :
    ((∃ e, receive_messagePy stream = .error e) ↔
      splitAtNewline stream = none ∨
      (∃ line tail, splitAtNewline stream = some (line, tail) ∧
        (loadsPy (String.mk line) = none ∨
         (∃ j, loadsPy (String.mk line) = some j ∧
           ¬(pyContainsPy j "type" = .ok true ∧
             pyContainsPy j "data" = .ok true))))) ∧
    (∀ j, receive_messagePy stream = .ok j ↔
      ∃ line tail, splitAtNewline stream = some (line, tail) ∧
        loadsPy (String.mk line) = some j ∧
        pyContainsPy j "type" = .ok true ∧
        pyContainsPy j "data" = .ok true) ∧
    (splitAtNewline stream = none →
      receive_messagePy stream = .error .connectionError) ∧
    (∀ line tail, splitAtNewline stream = some (line, tail) →
      loadsPy (String.mk line) = none →
      receive_messagePy stream =
        .error (.valueError "Failed to parse message")) ∧
    (∀ line tail j e, splitAtNewline stream = some (line, tail) →
      loadsPy (String.mk line) = some j →
      pyContainsPy j "type" = .error e →
      receive_messagePy stream = .error e) ∧
    (∀ line tail j, splitAtNewline stream = some (line, tail) →
      loadsPy (String.mk line) = some j →
      pyContainsPy j "type" = .ok false →
      receive_messagePy stream =
        .error (.valueError "Invalid message format")) ∧
    (∀ line tail j e, splitAtNewline stream = some (line, tail) →
      loadsPy (String.mk line) = some j →
      pyContainsPy j "type" = .ok true →
      pyContainsPy j "data" = .error e →
      receive_messagePy stream = .error e) ∧
    (∀ line tail j, splitAtNewline stream = some (line, tail) →
      loadsPy (String.mk line) = some j →
      pyContainsPy j "type" = .ok true →
      pyContainsPy j "data" = .ok false →
      receive_messagePy stream =
        .error (.valueError "Invalid message format")) := by
  refine ⟨?_, ?_, ?_, ?_, ?_, ?_, ?_, ?_⟩
  · rcases hsp : splitAtNewline stream with _ | ⟨line, tail⟩
    · have hr : receive_messagePy stream = .error .connectionError := by
        simp [receive_messagePy, hsp]
      simp [hr]
    · have hr := receive_messagePy_line stream line tail hsp
      rw [hr]
      constructor
      · intro h
        exact Or.inr ⟨line, tail, rfl,
          (parsePy_fail_iff (String.mk line)).1 h⟩
      · rintro (h | ⟨l, t, h1, hin⟩)
        · exact absurd h (fun hh => Option.noConfusion hh)
        · obtain ⟨hl1, -⟩ : line = l ∧ tail = t := by simpa using h1
          subst hl1
          exact (parsePy_fail_iff (String.mk line)).2 hin
  · intro j
    rcases hsp : splitAtNewline stream with _ | ⟨line, tail⟩
    · have hr : receive_messagePy stream = .error .connectionError := by
        simp [receive_messagePy, hsp]
      simp [hr]
    · have hr := receive_messagePy_line stream line tail hsp
      rw [hr]
      constructor
      · intro h
        exact ⟨line, tail, rfl, (parsePy_ok_iff (String.mk line) j).1 h⟩
      · rintro ⟨l, t, h1, h2, h3, h4⟩
        obtain ⟨hl1, -⟩ : line = l ∧ tail = t := by simpa using h1
        subst hl1
        exact (parsePy_ok_iff (String.mk line) j).2 ⟨h2, h3, h4⟩
  · intro h
    simp [receive_messagePy, h]
  · intro line tail h hl
    rw [receive_messagePy_line stream line tail h]
    simp [ProtocolMessagePy.parse, hl]
  · intro line tail j e h hl hpt
    rw [receive_messagePy_line stream line tail h]
    simp [ProtocolMessagePy.parse, hl, hpt]
  · intro line tail j h hl hpt
    rw [receive_messagePy_line stream line tail h]
    simp [ProtocolMessagePy.parse, hl, hpt]
  · intro line tail j e h hl hpt hpd
    rw [receive_messagePy_line stream line tail h]
    simp [ProtocolMessagePy.parse, hl, hpt, hpd]
  · intro line tail j h hl hpt hpd
    rw [receive_messagePy_line stream line tail h]
    simp [ProtocolMessagePy.parse, hl, hpt, hpd]

/-- Witness for C7 (amended) at concrete streams: a truncated stream
fails with ConnectionError, and the leading-zero line `05`, rejected by
the number grammar, fails with the parse ValueError. -/
theorem receive_failure_modes_witness :
    openBrackets ("abc".data) < 100 ∧
    receive_messagePy ("abc".data) = .error .connectionError ∧
    receive_messagePy ("05\n".data) =
      .error (.valueError "Failed to parse message") :=
  ⟨by decide,
   (receive_failure_modes ("abc".data) (by decide)).2.2.1 rfl,
   (receive_failure_modes ("05\n".data) (by decide)).2.2.2.1
     "05".data [] rfl rfl⟩

end Spec2Proof
